import Mathlib

/-!
Verification of the Onsager transport-coefficient calculator core
(`onsager/crystalStars.py`, `onsager/OnsagerCalc.py`) against its
natural-language specification.

Shallow embedding conventions:
* Python floats are modelled as exact rationals `ℚ`; transcendental
  functions (`exp`, `sqrt`) appearing in the rate computations are carried
  as abstract function parameters, since no property at issue depends on
  their values.
* Python `int` is `ℤ`; numpy integer arrays of length 3 are `ℤ × ℤ × ℤ`.
* Fallible Python code (raising `IndexError`, `ValueError`,
  `ArithmeticError`, `AttributeError`, `NameError`, `TypeError`) is
  translated into `Except PyErr`.
* Python list / numpy 1-d indexing (including negative-index wrap-around)
  is modelled by `pyGet`.
-/

/-- The Python exception kinds raised by the code under verification. -/
inductive PyErr where
  | valueErr (msg : String)
  | indexErr (msg : String)
  | arithErr (msg : String)
  | attrErr (msg : String)
  | nameErr (msg : String)
  | typeErr (msg : String)
  deriving DecidableEq, Repr

/-- Integer 3-vector (a numpy `dtype=int` array of length 3). -/
abbrev Vec3i : Type := ℤ × ℤ × ℤ

/-- Rational 3-vector (a numpy float array of length 3). -/
abbrev Vec3q : Type := ℚ × ℚ × ℚ

def v3iZero : Vec3i := ((0 : ℤ), (0 : ℤ), (0 : ℤ))
def v3qZero : Vec3q := ((0 : ℚ), (0 : ℚ), (0 : ℚ))

def v3iAdd (a b : Vec3i) : Vec3i := (a.1 + b.1, a.2.1 + b.2.1, a.2.2 + b.2.2)
def v3iNeg (a : Vec3i) : Vec3i := (-a.1, -a.2.1, -a.2.2)
def v3iSub (a b : Vec3i) : Vec3i := (a.1 - b.1, a.2.1 - b.2.1, a.2.2 - b.2.2)
def v3qAdd (a b : Vec3q) : Vec3q := (a.1 + b.1, a.2.1 + b.2.1, a.2.2 + b.2.2)
def v3qNeg (a : Vec3q) : Vec3q := (-a.1, -a.2.1, -a.2.2)
def v3qSub (a b : Vec3q) : Vec3q := (a.1 - b.1, a.2.1 - b.2.1, a.2.2 - b.2.2)
def v3qDot (a b : Vec3q) : ℚ := a.1 * b.1 + a.2.1 * b.2.1 + a.2.2 * b.2.2
def v3iToQ (a : Vec3i) : Vec3q := ((a.1 : ℚ), (a.2.1 : ℚ), (a.2.2 : ℚ))

/-- A 3x3 rational matrix, stored as rows. -/
abbrev Mat3q : Type := Vec3q × Vec3q × Vec3q

def m3Apply (M : Mat3q) (v : Vec3q) : Vec3q :=
  (v3qDot M.1 v, v3qDot M.2.1 v, v3qDot M.2.2 v)

/-- An integer 3x3 matrix, stored as rows (lattice representation of rotations). -/
abbrev Mat3i : Type := Vec3i × Vec3i × Vec3i

def v3iDot (a b : Vec3i) : ℤ := a.1 * b.1 + a.2.1 * b.2.1 + a.2.2 * b.2.2

def m3iApply (M : Mat3i) (v : Vec3i) : Vec3i :=
  (v3iDot M.1 v, v3iDot M.2.1 v, v3iDot M.2.2 v)

def m3qAdd (A B : Mat3q) : Mat3q :=
  (v3qAdd A.1 B.1, v3qAdd A.2.1 B.2.1, v3qAdd A.2.2 B.2.2)
def m3qNeg (A : Mat3q) : Mat3q := (v3qNeg A.1, v3qNeg A.2.1, v3qNeg A.2.2)
def m3qSmul (c : ℚ) (A : Mat3q) : Mat3q :=
  ((c * A.1.1, c * A.1.2.1, c * A.1.2.2),
   (c * A.2.1.1, c * A.2.1.2.1, c * A.2.1.2.2),
   (c * A.2.2.1, c * A.2.2.2.1, c * A.2.2.2.2))
def m3qZero : Mat3q := (v3qZero, v3qZero, v3qZero)

/-- Python `np.outer(dx, dx)` restricted to 3-vectors. -/
def v3qOuter (a b : Vec3q) : Mat3q :=
  ((a.1 * b.1, a.1 * b.2.1, a.1 * b.2.2),
   (a.2.1 * b.1, a.2.1 * b.2.1, a.2.1 * b.2.2),
   (a.2.2 * b.1, a.2.2 * b.2.1, a.2.2 * b.2.2))

/-- Python sequence indexing `l[n]` with negative-index wrap-around;
raises `IndexError` when out of range. -/
def pyGet {α : Type} (l : List α) (n : ℤ) : Except PyErr α :=
  let m := if n < 0 then n + (l.length : ℤ) else n
  if m < 0 then .error (.indexErr "index out of range")
  else
    match l.get? m.toNat with
    | some a => .ok a
    | none => .error (.indexErr "index out of range")

/-- Python `l[n] = v` on a numpy 1-d array (bounds-checked, negative wrap). -/
def pySet {α : Type} (l : List α) (n : ℤ) (v : α) : Except PyErr (List α) :=
  let m := if n < 0 then n + (l.length : ℤ) else n
  if m < 0 then .error (.indexErr "index out of range")
  else if m.toNat < l.length then .ok (l.set m.toNat v)
  else .error (.indexErr "index out of range")

/-- Decidable equality of computation outcomes. -/
instance {ε α : Type} [DecidableEq ε] [DecidableEq α] : DecidableEq (Except ε α) :=
  fun a b =>
    match a, b with
    | .ok x, .ok y =>
      if h : x = y then isTrue (by rw [h]) else isFalse (by intro hc; cases hc; exact h rfl)
    | .error x, .error y =>
      if h : x = y then isTrue (by rw [h]) else isFalse (by intro hc; cases hc; exact h rfl)
    | .ok _, .error _ => isFalse (by intro hc; cases hc)
    | .error _, .ok _ => isFalse (by intro hc; cases hc)

/-! ## PairState (crystalStars.py lines 34-158)

`class PairState(collections.namedtuple('PairState', 'i j R dx'))`.
The solute is at site `i` of the unit cell at the origin, the vacancy at
site `j` of the unit cell at lattice vector `R`; `dx` is the Cartesian
vector between them. -/

structure PairState where
  i : ℤ
  j : ℤ
  R : Vec3i
  dx : Vec3q
  deriving DecidableEq, Repr

namespace PairState

/-- Python `PairState.zero(n)`: the zero state at site `n`. -/
def zero (n : ℤ) : PairState := ⟨n, n, v3iZero, v3qZero⟩

/-- Python `iszero()`: `self.i == self.j and np.all(self.R == 0)`. -/
def iszero (a : PairState) : Prop := a.i = a.j ∧ a.R = v3iZero

instance (a : PairState) : Decidable a.iszero := by unfold iszero; infer_instance

/-- Python `__eq__`: equality tests `(i, j, R)` and does not check `dx`
(the `isinstance` test always passes in this typed embedding). -/
def eqP (a b : PairState) : Prop := a.i = b.i ∧ a.j = b.j ∧ a.R = b.R

instance (a b : PairState) : Decidable (eqP a b) := by unfold eqP; infer_instance

/-- Python `__hash__` computes `hash((self.i, self.j, self.R[0], self.R[1], self.R[2]))`.
We model the hash value by the tuple fed to Python's (deterministic) tuple
hash, so equal tuples give equal hashes. -/
def hashKey (a : PairState) : ℤ × ℤ × ℤ × ℤ × ℤ :=
  (a.i, a.j, a.R.1, a.R.2.1, a.R.2.2)

/-- Python `__add__`: composition; defined iff `self.j == other.i`, with the two
special branches for the `i = j = -1` sentinel zero, and raising
`ArithmeticError` on mismatched endpoints. -/
def add (a b : PairState) : Except PyErr PairState :=
  if a.iszero ∧ a.j = -1 then .ok b
  else if b.iszero ∧ b.i = -1 then .ok a
  else if a.j ≠ b.i then
    .error (.arithErr "Can only add matching endpoints")
  else .ok ⟨a.i, b.j, v3iAdd a.R b.R, v3qAdd a.dx b.dx⟩

/-- Python `__neg__`: `-(i,j) R = (j,i) -R`. -/
def neg (a : PairState) : PairState := ⟨a.j, a.i, v3iNeg a.R, v3qNeg a.dx⟩

/-- Python `__xor__`: endpoint subtraction, defined iff `self.i == other.i`. -/
def xorOp (a b : PairState) : Except PyErr PairState :=
  if a.i ≠ b.i then
    .error (.arithErr "Can only endpoint subtract matching starts")
  else .ok ⟨b.j, a.j, v3iSub a.R b.R, v3qSub a.dx b.dx⟩

/-- Python `sortkey(entry)`: `np.dot(entry.dx, entry.dx)`. -/
def sortkey (a : PairState) : ℚ := v3qDot a.dx a.dx

end PairState

/-! ## Crystal oracle

Modelled from the spec: the construction of the crystal itself is an
external collaborator (spec section 1 and section 6); the core consumes,
for each group operation `g`, a Cartesian rotation `cartrot`, a site
permutation `indexmap`, and the actions `g_pos(R,(chem,i)) -> (R',(chem,i'))`
and `g_direc(v) -> v'`.  A space-group operation acts on a lattice point
`R` attached to site `i` as an integer-linear rotation plus a
site-dependent lattice translation, and on Cartesian vectors by `cartrot`. -/

structure Gop where
  rot : Mat3i
  tau : ℤ → Vec3i
  perm : ℤ → ℤ
  cartrot : Mat3q

/-- Modelled from the spec: `crys.g_pos(g, R, (chem, i)) -> (R', (chem, i'))`. -/
def gpos (g : Gop) (R : Vec3i) (i : ℤ) : Vec3i × ℤ :=
  (v3iAdd (m3iApply g.rot R) (g.tau i), g.perm i)

/-- Modelled from the spec: `crys.g_direc(g, v)` applies `cartrot`. -/
def gdirec (g : Gop) (v : Vec3q) : Vec3q := m3Apply g.cartrot v

/-- Modelled from the spec: the crystal handle consumed by the core
(group operations, Cartesian lattice matrix, fractional basis of the
mobile species). -/
structure Crys where
  G : List Gop
  lattice : Mat3q
  basis : ℤ → Vec3q

/-- The geometric `dx` of a pair `(i, j, R)`:
`dx = L . (R + b[j] - b[i])` (spec section 3, PairState invariant). -/
def Crys.geom (c : Crys) (i j : ℤ) (R : Vec3i) : Vec3q :=
  m3Apply c.lattice (v3qAdd (v3iToQ R) (v3qSub (c.basis j) (c.basis i)))

/-- Python `PairState.__sane__`: `dx` agrees with the crystal geometry. -/
def Crys.sane (c : Crys) (a : PairState) : Prop := a.dx = c.geom a.i a.j a.R

instance (c : Crys) (a : PairState) : Decidable (c.sane a) := by
  unfold Crys.sane; infer_instance

/-- A group operation is an actual symmetry of the crystal geometry:
its Cartesian action and its lattice action compute the same `dx`.
This is the defining property of the group operations supplied by the
crystal oracle. -/
def Crys.compat (c : Crys) (g : Gop) : Prop :=
  ∀ (i j : ℤ) (R : Vec3i),
    m3Apply g.cartrot (c.geom i j R) =
      c.geom (g.perm i) (g.perm j)
        (v3iAdd (m3iApply g.rot R) (v3iSub (g.tau j) (g.tau i)))

/-- Python `PairState.g(crys, chem, g)` (crystalStars.py lines 136-148):
apply `g_pos` to both endpoints and `g_direc` to `dx`. -/
def PairState.gAct (g : Gop) (a : PairState) : PairState :=
  let pi := gpos g v3iZero a.i
  let pj := gpos g a.R a.j
  ⟨pi.2, pj.2, v3iSub pj.1 pi.1, gdirec g a.dx⟩

/-! ## StarSet (crystalStars.py lines 235-631)

The mutable Python object is modelled as a record of its attributes;
`indexdict` is derived data (it maps each entry of `states`, keyed by
`PairState.__eq__`, to its position) and is represented by lookup into
`states`. -/

structure StarSetM where
  crys : Crys
  chem : ℤ
  Nshells : ℤ
  jumpnetworkIndex : List (List ℕ)
  jumplist : List PairState
  states : List PairState
  Nstates : ℕ
  stars : List (List ℕ)
  Nstars : ℕ
  index : List ℕ

/-- Python `stateindex(PS)` (lines 525-528): index of `PS` in `states` via
`indexdict`; `None` when absent. -/
def StarSetM.stateindex (S : StarSetM) (ps : PairState) : Option ℕ :=
  S.states.findIdx? (fun t => decide (PairState.eqP t ps))

/-- One element of a jump orbit: `((IS, FS), dx)`.  The endpoint indices
are those produced by `stateindex` inside `symmequivjumplist`, which the
source appends without checking for `None`; hence `Option`. -/
abbrev JumpEntry : Type := (Option ℕ × Option ℕ) × Vec3q

/-- Python `symmequivjumplist(i, f, dx)` (lines 611-631): seed `((i,f),dx)` and,
when `i != f`, `((f,i),-dx)`; then for every `g` in `G` append the image
jump (and its reverse when its endpoints differ) unless the ordered image
pair is already present. -/
def StarSetM.symmequivjumplist (S : StarSetM) (i f : ℕ) (dx : Vec3q) :
    Except PyErr (List JumpEntry) := do
  let PSi ← pyGet S.states (i : ℤ)
  let PSf ← pyGet S.states (f : ℤ)
  let init : List JumpEntry :=
    ((some i, some f), dx) ::
      (if i ≠ f then [((some f, some i), v3qNeg dx)] else [])
  pure (S.crys.G.foldl (fun acc g =>
    let gi := S.stateindex (PairState.gAct g PSi)
    let gf := S.stateindex (PairState.gAct g PSf)
    let gdx := gdirec g dx
    if acc.any (fun e => decide (e.1.1 = gi) && decide (e.1.2 = gf)) then acc
    else acc ++ (((gi, gf), gdx) ::
      (if gi ≠ gf then [((gf, gi), v3qNeg gdx)] else []))) init)

/-- Python `jumpnetwork_omega1()` (lines 540-574): vacancy jumps with the solute
fixed.  (When `Nshells < 1` the source returns a bare empty list; we
return the empty triple, which carries the same jump content.) -/
def StarSetM.jumpnetworkOmega1 (S : StarSetM) :
    Except PyErr (List (List JumpEntry) × List ℕ × List (ℕ × ℕ)) := do
  if S.Nshells < 1 then return ([], [], [])
  S.jumpnetworkIndex.enum.foldlM (fun acc jtp => do
    let jt := jtp.1
    let jumps ← jtp.2.mapM (fun j => pyGet S.jumplist (j : ℤ))
    jumps.foldlM (fun acc jump =>
      S.states.enum.foldlM (fun acc ip => do
        let i := ip.1
        let PSi := ip.2
        if PairState.iszero PSi then pure acc
        else
          match PairState.add PSi jump with
          | .error _ => pure acc
          | .ok PSf =>
            if PairState.iszero PSf then pure acc
            else
              match S.stateindex PSf with
              | none => pure acc
              | some f =>
                if acc.1.any (fun jlist => jlist.any (fun e =>
                    decide (e.1.1 = some i) && decide (e.1.2 = some f))) then
                  pure acc
                else do
                  let dx := v3qSub PSf.dx PSi.dx
                  let sj ← S.symmequivjumplist i f dx
                  let sp1 ← pyGet S.index (i : ℤ)
                  let sp2 ← pyGet S.index (f : ℤ)
                  pure (acc.1 ++ [sj], acc.2.1 ++ [jt], acc.2.2 ++ [(sp1, sp2)]))
        acc) acc) ([], [], [])

/-- Python `jumpnetwork_omega2()` (lines 576-609): solute-vacancy exchange; only
sums landing on the zero state are kept, and the recorded final state is
`stateindex(-PS_i)` with displacement `-PS_i.dx`.  When that `stateindex`
is `None` the source passes `None` into `symmequivjumplist`, where
`self.states[None]` raises. -/
def StarSetM.jumpnetworkOmega2 (S : StarSetM) :
    Except PyErr (List (List JumpEntry) × List ℕ × List (ℕ × ℕ)) := do
  if S.Nshells < 1 then return ([], [], [])
  S.jumpnetworkIndex.enum.foldlM (fun acc jtp => do
    let jt := jtp.1
    let jumps ← jtp.2.mapM (fun j => pyGet S.jumplist (j : ℤ))
    jumps.foldlM (fun acc jump =>
      S.states.enum.foldlM (fun acc ip => do
        let i := ip.1
        let PSi := ip.2
        if PairState.iszero PSi then pure acc
        else
          match PairState.add PSi jump with
          | .error _ => pure acc
          | .ok PSf =>
            if ¬ PairState.iszero PSf then pure acc
            else
              let f := S.stateindex (PairState.neg PSi)
              if acc.1.any (fun jlist => jlist.any (fun e =>
                  decide (e.1.1 = some i) && decide (e.1.2 = f))) then
                pure acc
              else
                match f with
                | none => throw (.typeErr "list indices must be integers")
                | some fv => do
                  let dx := v3qNeg PSi.dx
                  let sj ← S.symmequivjumplist i fv dx
                  let sp1 ← pyGet S.index (i : ℤ)
                  let sp2 ← pyGet S.index (fv : ℤ)
                  pure (acc.1 ++ [sj], acc.2.1 ++ [jt], acc.2.2 ++ [(sp1, sp2)]))
        acc) acc) ([], [], [])

/-! ## StarSet union: `__iadd__` / `__add__` (crystalStars.py lines 443-522) -/

/-- The observable outcome of `a.__iadd__(b)` / Python `a += b`:
either the `ArithmeticError` object is *returned as a value* (the source
says `return ArithmeticError(...)`, not `raise`), or a `StarSet` is
returned, or an exception is actually raised mid-computation. -/
inductive IaddResult where
  | errObj (msg : String)
  | starset (s : StarSetM)
  | crash (e : PyErr)

/-- Python `copy()` (lines 422-438) copies every field; with value semantics this
is the identity. -/
def StarSetM.copy (s : StarSetM) : StarSetM := s

/-- A default element for in-range `getD` accesses (never used out of range). -/
def dfltPS : PairState := PairState.zero 0

/-- The mutation path of `__iadd__` (lines 469-522), reached when the
chemistries match and both operands have `Nshells >= 1`.  Python-set
iteration order is unspecified; we keep insertion order for `newstateset`
and represent `symmstate_list` sets as plain lists (they are only
membership-tested under `PairState.__eq__`). -/
def StarSetM.iaddMain (self other : StarSetM) : Except PyErr StarSetM := do
  let threshold : ℚ := 1 / 100000000
  let Nshells := self.Nshells + other.Nshells
  let Nold := self.Nstates
  -- newstateset: sums s1 + s2 for s1 in self.states[:Nold], s2 in other.states,
  -- excluding zero and members of oldstateset = set(self.states)
  let newstates := (self.states.take Nold).foldl (fun ns s1 =>
    other.states.foldl (fun ns s2 =>
      match PairState.add s1 s2 with
      | .error _ => ns
      | .ok s =>
        if PairState.iszero s then ns
        else if self.states.any (fun t => decide (PairState.eqP t s)) then ns
        else if ns.any (fun t => decide (PairState.eqP t s)) then ns
        else ns ++ [s]) ns) ([] : List PairState)
  -- self.states += sorted(newstateset, key=PairState.sortkey)  (stable)
  let states2 := self.states ++
    newstates.mergeSort (fun a b => decide (a.sortkey ≤ b.sortkey))
  let Nnew := states2.length
  -- x2_indices: boundaries between |dx|^2 magnitude buckets among the new states;
  -- `self.states[Nold]` raises IndexError when no state was added
  let firstPS ← pyGet states2 (Nold : ℤ)
  let x2pairs := (List.range' Nold (Nnew - Nold)).foldl
    (fun (p : List ℕ × ℚ) i =>
      let x2 := (states2.getD i dfltPS).sortkey
      if x2 > p.2 + threshold then (p.1 ++ [i], x2) else p)
    ([], firstPS.sortkey)
  let x2indices := x2pairs.1 ++ [Nnew]
  -- star partition of each magnitude bucket [xmin, xmax) by symmetry
  let newstarsAcc := x2indices.foldl
    (fun (acc : List (List ℕ) × ℕ) xmax =>
      let xmin := acc.2
      let seg := (List.range' xmin (xmax - xmin)).foldl
        (fun (cs : List (List ℕ × List PairState)) xi =>
          let x := states2.getD xi dfltPS
          let matched := cs.any (fun c =>
            c.2.any (fun t => decide (PairState.eqP x t)))
          let cs2 := cs.map (fun c =>
            if c.2.any (fun t => decide (PairState.eqP x t)) then
              (c.1 ++ [xi], c.2)
            else c)
          if matched then cs2
          else cs2 ++ [([xi], self.crys.G.map (fun g => PairState.gAct g x))])
        []
      (acc.1 ++ seg.map (fun c => c.1), xmax))
    ([], Nold)
  let stars2 := self.stars ++ newstarsAcc.1
  -- self.index = np.pad(self.index, (0, Nnew - Nold), mode='constant')
  let index2 := self.index ++ List.replicate (Nnew - Nold) 0
  let NstarsOld := self.Nstars
  let NstarsNew := stars2.length
  let index3 ← (List.range' NstarsOld (NstarsNew - NstarsOld)).foldlM
    (fun ix si =>
      (stars2.getD si []).foldlM (fun ix xi => pySet ix (xi : ℤ) si) ix)
    index2
  pure { self with
    Nshells := Nshells, states := states2, Nstates := Nnew,
    stars := stars2, Nstars := NstarsNew, index := index3 }

/-- Python `__iadd__` (lines 454-522).  Note line 458: on a chemistry mismatch the
source *returns* `ArithmeticError('Cannot add different chemistry index')`
as a value instead of raising it.  (The `isinstance` guard always passes in
this typed embedding.) -/
def StarSetM.iadd (self other : StarSetM) : IaddResult :=
  if self.chem ≠ other.chem then .errObj "Cannot add different chemistry index"
  else if other.Nshells < 1 then .starset self
  else if self.Nshells < 1 then
    .starset { self with
      Nshells := other.Nshells, stars := other.stars, states := other.states,
      Nstars := other.Nstars, Nstates := other.Nstates, index := other.index }
  else
    match self.iaddMain other with
    | .ok s => .starset s
    | .error e => .crash e

/-- Python `__add__` (lines 443-452): copy the operand with more shells, call
`__iadd__` on the copy *discarding its return value*, and return the copy.
When `__iadd__` takes the chemistry-mismatch early return, the copy was
never mutated, so `a + b` silently yields an unchanged copy. -/
def StarSetM.addOp (a b : StarSetM) : IaddResult :=
  if a.Nshells ≥ b.Nshells then
    match a.copy.iadd b with
    | .crash e => .crash e
    | .errObj _ => .starset a.copy
    | .starset s => .starset s
  else
    match b.copy.iadd a with
    | .crash e => .crash e
    | .errObj _ => .starset b.copy
    | .starset s => .starset s

/-! ## vacancyThermoKinetics (OnsagerCalc.py lines 452-494) -/

/-- Python `vacancyThermoKinetics(pre, betaene, preT, betaeneT)`: the GF-cache
key, a namedtuple of four float arrays. -/
structure vacancyThermoKinetics where
  pre : List ℚ
  betaene : List ℚ
  preT : List ℚ
  betaeneT : List ℚ
  deriving DecidableEq, Repr

/-- Python `np.allclose(a, b)` with the numpy defaults `rtol = 1e-5`,
`atol = 1e-8` for equal-length 1-d arrays (the only shape combination the
cache keys exercise): elementwise `|a - b| <= atol + rtol * |b|`. -/
def allcloseQ (a b : List ℚ) : Prop :=
  a.length = b.length ∧
    ∀ p ∈ a.zip b, |p.1 - p.2| ≤ 1 / 100000000 + (1 / 100000) * |p.2|

instance (a b : List ℚ) : Decidable (allcloseQ a b) := by
  unfold allcloseQ; infer_instance

namespace vacancyThermoKinetics

/-- Python `__eq__` (lines 470-474): `np.allclose` on all four arrays
(the `isinstance` test always passes in this typed embedding). -/
def eqP (a b : vacancyThermoKinetics) : Prop :=
  allcloseQ a.pre b.pre ∧ allcloseQ a.betaene b.betaene ∧
    allcloseQ a.preT b.preT ∧ allcloseQ a.betaeneT b.betaeneT

instance (a b : vacancyThermoKinetics) : Decidable (eqP a b) := by
  unfold eqP; infer_instance

/-- Python `__hash__` (lines 479-481) hashes
`pre.data.tobytes() + betaene.data.tobytes() + preT.data.tobytes() + betaeneT.data.tobytes()`:
the concatenated *raw, un-rounded* byte representation of the arrays.  We
model the hash by the byte string fed to Python's deterministic `hash`,
i.e. by the concatenated list of exact float values. -/
def hashBytes (a : vacancyThermoKinetics) : List ℚ :=
  a.pre ++ a.betaene ++ a.preT ++ a.betaeneT

end vacancyThermoKinetics

/-- The module-level scope of OnsagerCalc.py binds no plain name `__eq__`
(no such top-level definition exists, and Python builtins provide none);
`__ne__` at lines 476-477 nevertheless evaluates the bare name `__eq__`. -/
def moduleGlobalEqLookup :
    Option (vacancyThermoKinetics → Except PyErr Bool) := none

/-- Python `__ne__` (lines 476-477): `return not __eq__(other)`.  The bare name
`__eq__` (not `self.__eq__`) is resolved in the local, module and builtin
scopes; all three lookups fail, so evaluation raises `NameError` before
any comparison happens. -/
def vacancyThermoKinetics.nePy (_a b : vacancyThermoKinetics) :
    Except PyErr Bool := do
  match moduleGlobalEqLookup with
  | none => throw (.nameErr "name __eq__ is not defined")
  | some f => do
      let r ← f b
      pure (!r)

/-- Python `dict.get(k)` on a dict keyed by `vacancyThermoKinetics`: CPython
locates a slot whose key hashes like `k` and then compares with `__eq__`.
Hash agreement is modelled as equality of the byte strings fed to `hash`. -/
def vtkDictGet {α : Type} (d : List (vacancyThermoKinetics × α))
    (k : vacancyThermoKinetics) : Option α :=
  (d.find? (fun e => decide (e.1.hashBytes = k.hashBytes) &&
    decide (vacancyThermoKinetics.eqP e.1 k))).map (fun e => e.2)

/-- Python `dict[k] = v` under the same key semantics. -/
def vtkDictSet {α : Type} (d : List (vacancyThermoKinetics × α))
    (k : vacancyThermoKinetics) (v : α) : List (vacancyThermoKinetics × α) :=
  if d.any (fun e => decide (e.1.hashBytes = k.hashBytes) &&
      decide (vacancyThermoKinetics.eqP e.1 k)) then
    d.map (fun e =>
      if decide (e.1.hashBytes = k.hashBytes) &&
          decide (vacancyThermoKinetics.eqP e.1 k) then (e.1, v) else e)
  else d ++ [(k, v)]

/-! ## The omega2 Wyckoff table of `VacancyMediated.generate`
(OnsagerCalc.py lines 630-643) -/

/-- The `svsvWyckoff` comprehension shared by lines 634-638 and 639-643:
for each symmetry-unique jump of a network, the Wyckoff indices (via
`invmap`) of the solute and vacancy sites of the representative initial
and final states. -/
def svsvWyckoffTable (invmap : List ℕ) (states : List PairState)
    (jn : List (List JumpEntry)) : Except PyErr (List (ℕ × ℕ × ℕ × ℕ)) :=
  jn.mapM (fun jumplist => do
    let e ← pyGet jumplist 0
    let i0 ← match e.1.1 with
             | some n => pure n
             | none => throw (.typeErr "list indices must be integers")
    let f0 ← match e.1.2 with
             | some n => pure n
             | none => throw (.typeErr "list indices must be integers")
    let PSi ← pyGet states (i0 : ℤ)
    let PSf ← pyGet states (f0 : ℤ)
    let a ← pyGet invmap PSi.i
    let b ← pyGet invmap PSi.j
    let c ← pyGet invmap PSf.i
    let dd ← pyGet invmap PSf.j
    pure (a, b, c, dd))

/-- Python `self.omega2svsvWyckoff` exactly as `generate` computes it
(lines 639-643): the comprehension iterates `self.om1_jn`. -/
def omega2svsvWyckoffCode (invmap : List ℕ) (states : List PairState)
    (om1_jn : List (List JumpEntry)) : Except PyErr (List (ℕ × ℕ × ℕ × ℕ)) :=
  svsvWyckoffTable invmap states om1_jn

/-- Modelled from the spec: the omega2 Wyckoff table derived from the
omega2 jump network.  Spec section 9: "The source computes
omega2svsvWyckoff using om1_jn rather than om2_jn; an implementer should
use the omega2 jump network for the omega2 Wyckoff table.  Treat as a bug
in the reference." -/
def omega2svsvWyckoffSpec (invmap : List ℕ) (states : List PairState)
    (om2_jn : List (List JumpEntry)) : Except PyErr (List (ℕ × ℕ × ℕ × ℕ)) :=
  svsvWyckoffTable invmap states om2_jn

/-! ## VacancyMediated: rates and Lij (OnsagerCalc.py lines 541-1059)

The diffuser object after `generate` is a record of the attributes `Lij`
reads.  numpy nd-arrays of fixed shape built by the expansions are
modelled as total maps `ℕ → ... → ℚ` together with the dimension fields
over which contractions run; 1-d arrays whose indexing the code computes
are kept as lists with checked access. -/

def zeroA1 : ℕ → ℚ := fun _ => 0
def zeroA2 : ℕ → ℕ → ℚ := fun _ _ => 0

/-- numpy element assignment `A[i] = v` on a 1-d array (in-range writes). -/
def updA1 (f : ℕ → ℚ) (i : ℕ) (v : ℚ) : ℕ → ℚ :=
  fun a => if a = i then v else f a

/-- numpy element assignment `A[i, j] = v` on a 2-d array. -/
def updA2 (f : ℕ → ℕ → ℚ) (i j : ℕ) (v : ℚ) : ℕ → ℕ → ℚ :=
  fun a b => if a = i ∧ b = j then v else f a b

/-- Python `np.dot` contraction helper: sum of `f k` over `k < n`. -/
def sumR (n : ℕ) (f : ℕ → ℚ) : ℚ := ∑ k ∈ Finset.range n, f k

/-- Build a 3x3 matrix from an index function. -/
def mk3 (f : ℕ → ℕ → ℚ) : Mat3q :=
  ((f 0 0, f 0 1, f 0 2), (f 1 0, f 1 1, f 1 2), (f 2 0, f 2 1, f 2 2))

/-- The attributes of a `VacancyMediated` diffuser created by `generate`,
plus the external oracles it consumes.  `exp` and `sqrt` are the
real-valued transcendental functions, abstract here; `GFcalcEval vtk i j dx`
is the Green-function oracle after `SetRates(**vtk._asdict())`, and
`GFcalcDiff vtk` its `Diffusivity()` (spec section 6, consumed as black
boxes). -/
structure VMGen where
  exp : ℚ → ℚ
  sqrt : ℚ → ℚ
  N : ℕ
  Nvstars : ℕ
  NGF : ℕ
  Nom0 : ℕ
  invmap : List ℕ
  kineticsvWyckoff : List (ℕ × ℕ)
  thermo2kin : List ℕ
  kin2vacancy : List ℕ
  vstar2kin : List ℕ
  kin2vstar : List (List ℕ)
  kineticIndex : List ℕ
  kineticStates : List PairState
  omega0vacancyWyckoff : List (ℕ × ℕ)
  omega1svsvWyckoff : List (ℕ × ℕ × ℕ × ℕ)
  omega2svsvWyckoff : List (ℕ × ℕ × ℕ × ℕ)
  om1_jn : List (List JumpEntry)
  om2_jn : List (List JumpEntry)
  om1_jt : List ℕ
  om2_jt : List ℕ
  om1_SP : List (ℕ × ℕ)
  om2_SP : List (ℕ × ℕ)
  GFstarsetStates : List PairState
  GFstarsetStars : List (List ℕ)
  GFexpansion : ℕ → ℕ → ℕ → ℚ
  outer : ℕ → ℕ → ℕ → ℕ → ℚ
  om1expansion : ℕ → ℕ → ℕ → ℚ
  om2expansion : ℕ → ℕ → ℕ → ℚ
  om1_om0 : ℕ → ℕ → ℕ → ℚ
  om2_om0 : ℕ → ℕ → ℕ → ℚ
  om1escape : ℕ → ℕ → ℚ
  om2escape : ℕ → ℕ → ℚ
  om1_om0escape : ℕ → ℕ → ℚ
  om2_om0escape : ℕ → ℕ → ℚ
  om1_b0 : ℕ → ℕ → ℚ
  om2_b0 : ℕ → ℕ → ℚ
  om1bias : ℕ → ℕ → ℚ
  om2bias : ℕ → ℕ → ℚ
  GFvalues : List (vacancyThermoKinetics × List ℚ)
  Lvvvalues : List (vacancyThermoKinetics × Mat3q)
  GFcalcEval : vacancyThermoKinetics → ℤ → ℤ → Vec3q → ℚ
  GFcalcDiff : vacancyThermoKinetics → Mat3q

/-- The outputs of `_symmetricandescaperates`. -/
structure RatesOut where
  omega0 : ℕ → ℚ
  omega1 : ℕ → ℚ
  omega2 : ℕ → ℚ
  omega0escape : ℕ → ℕ → ℚ
  omega1escape : ℕ → ℕ → ℚ
  omega2escape : ℕ → ℕ → ℚ
  omega1om0escape : ℕ → ℕ → ℚ
  omega2om0escape : ℕ → ℕ → ℚ

/-- Python `_symmetricandescaperates(bFV, bFS, bFSV, bFT0, bFT1, bFT2)`
(lines 908-962): symmetric rates, escape rates, and reference escape
rates; each loop zips `itertools.count()` with the data lists (truncating
to the shortest). -/
def VMGen.symmetricandescaperates (d : VMGen)
    (bFV bFS bFSV bFT0 bFT1 bFT2 : List ℚ) : Except PyErr RatesOut := do
  -- omega0 (lines 930-935)
  let s0 ← (bFT0.zip d.omega0vacancyWyckoff).enum.foldlM
    (fun (s : (ℕ → ℚ) × (ℕ → ℕ → ℚ)) jp => do
      let j : ℕ := jp.1
      let bF : ℚ := jp.2.1
      let v1 : ℕ := jp.2.2.1
      let v2 : ℕ := jp.2.2.2
      let bv1 ← pyGet bFV (v1 : ℤ)
      let bv2 ← pyGet bFV (v2 : ℤ)
      let esc1 := updA2 s.2 v1 j (d.exp (-bF + bv1))
      let esc2 := updA2 esc1 v2 j (d.exp (-bF + bv2))
      let om := updA1 s.1 j (d.sqrt (esc2 v1 j * esc2 v2 j))
      pure (om, esc2))
    (zeroA1, zeroA2)
  let omega0 := s0.1
  let omega0escape := s0.2
  -- omega1 (lines 936-948)
  let s1 ← ((d.omega1svsvWyckoff.zip (d.om1_jt.zip (d.om1_SP.zip bFT1)))).enum.foldlM
    (fun (s : (ℕ → ℚ) × (ℕ → ℕ → ℚ) × (ℕ → ℕ → ℚ)) jp => do
      let j : ℕ := jp.1
      let s1w : ℕ := jp.2.1.1
      let v1w : ℕ := jp.2.1.2.1
      let s2w : ℕ := jp.2.1.2.2.1
      let v2w : ℕ := jp.2.1.2.2.2
      let jumptype : ℕ := jp.2.2.1
      let st1 : ℕ := jp.2.2.2.1.1
      let st2 : ℕ := jp.2.2.2.1.2
      let bFT : ℚ := jp.2.2.2.2
      let bs1 ← pyGet bFS (s1w : ℤ)
      let bv1 ← pyGet bFV (v1w : ℤ)
      let bsv1 ← pyGet bFSV (st1 : ℤ)
      let bs2 ← pyGet bFS (s2w : ℤ)
      let bv2 ← pyGet bFV (v2w : ℤ)
      let bsv2 ← pyGet bFSV (st2 : ℤ)
      let omF := d.exp (-bFT + bs1 + bv1 + bsv1)
      let omB := d.exp (-bFT + bs2 + bv2 + bsv2)
      let om := updA1 s.1 j (d.sqrt (omF * omB))
      let vl1 ← pyGet d.kin2vstar (st1 : ℤ)
      let p1 := vl1.foldl (fun (p : (ℕ → ℕ → ℚ) × (ℕ → ℕ → ℚ)) vst =>
        (updA2 p.1 vst j omF, updA2 p.2 vst jumptype (omega0escape v1w jumptype)))
        (s.2.1, s.2.2)
      let vl2 ← pyGet d.kin2vstar (st2 : ℤ)
      let p2 := vl2.foldl (fun (p : (ℕ → ℕ → ℚ) × (ℕ → ℕ → ℚ)) vst =>
        (updA2 p.1 vst j omB, updA2 p.2 vst jumptype (omega0escape v2w jumptype)))
        p1
      pure (om, p2.1, p2.2))
    (zeroA1, zeroA2, zeroA2)
  -- omega2 (lines 949-959)
  let s2 ← ((d.omega2svsvWyckoff.zip (d.om2_jt.zip (d.om2_SP.zip bFT2)))).enum.foldlM
    (fun (s : (ℕ → ℚ) × (ℕ → ℕ → ℚ) × (ℕ → ℕ → ℚ)) jp => do
      let j : ℕ := jp.1
      let s1w : ℕ := jp.2.1.1
      let v1w : ℕ := jp.2.1.2.1
      let s2w : ℕ := jp.2.1.2.2.1
      let v2w : ℕ := jp.2.1.2.2.2
      let jumptype : ℕ := jp.2.2.1
      let st1 : ℕ := jp.2.2.2.1.1
      let st2 : ℕ := jp.2.2.2.1.2
      let bFT : ℚ := jp.2.2.2.2
      let bs1 ← pyGet bFS (s1w : ℤ)
      let bv1 ← pyGet bFV (v1w : ℤ)
      let bsv1 ← pyGet bFSV (st1 : ℤ)
      let bs2 ← pyGet bFS (s2w : ℤ)
      let bv2 ← pyGet bFV (v2w : ℤ)
      let bsv2 ← pyGet bFSV (st2 : ℤ)
      let omF := d.exp (-bFT + bs1 + bv1 + bsv1)
      let omB := d.exp (-bFT + bs2 + bv2 + bsv2)
      let om := updA1 s.1 j (d.sqrt (omF * omB))
      let vl1 ← pyGet d.kin2vstar (st1 : ℤ)
      let p1 := vl1.foldl (fun (p : (ℕ → ℕ → ℚ) × (ℕ → ℕ → ℚ)) vst =>
        (updA2 p.1 vst j omF, updA2 p.2 vst jumptype (omega0escape v1w jumptype)))
        (s.2.1, s.2.2)
      let vl2 ← pyGet d.kin2vstar (st2 : ℤ)
      let p2 := vl2.foldl (fun (p : (ℕ → ℕ → ℚ) × (ℕ → ℕ → ℚ)) vst =>
        (updA2 p.1 vst j omB, updA2 p.2 vst jumptype (omega0escape v2w jumptype)))
        p1
      pure (om, p2.1, p2.2))
    (zeroA1, zeroA2, zeroA2)
  pure ⟨omega0, s1.1, s2.1, omega0escape, s1.2.1, s2.2.1, s1.2.2, s2.2.2⟩

/-- Python `np.linalg.inv` over exact rationals: `det⁻¹ • adjugate`. -/
def matInvQ {n : ℕ} (A : Matrix (Fin n) (Fin n) ℚ) : Matrix (Fin n) (Fin n) ℚ :=
  (A.det)⁻¹ • A.adjugate

/-- Read a `Fin`-indexed matrix at `ℕ` indices (0 outside range; all
reads in use are in range). -/
def matFun {n : ℕ} (A : Matrix (Fin n) (Fin n) ℚ) : ℕ → ℕ → ℚ := fun a b =>
  if ha : a < n then if hb : b < n then A ⟨a, ha⟩ ⟨b, hb⟩ else 0 else 0

/-- Python `G0 = np.dot(self.GFexpansion, GF)` (line 1041): contraction of the
GF expansion tensor with the GF vector. -/
def VMGen.G0of (d : VMGen) (GF : List ℚ) :
    Matrix (Fin d.Nvstars) (Fin d.Nvstars) ℚ :=
  Matrix.of fun a b => sumR d.NGF (fun k => d.GFexpansion a.val b.val k * GF.getD k 0)

/-- The intermediate data of `Lij` after steps 1-4 (lines 984-1038). -/
structure LijMid where
  GF : List ℚ
  L0vv : Option Mat3q
  GFvalues2 : List (vacancyThermoKinetics × List ℚ)
  Lvvvalues2 : List (vacancyThermoKinetics × Mat3q)
  probV : List ℚ
  probS : List ℚ
  prob : List ℚ
  rates : RatesOut
  deltaOm : ℕ → ℕ → ℚ
  biasS : ℕ → ℚ
  biasV : ℕ → ℚ

/-- Steps 1-4 of `Lij` (lines 984-1038): GF retrieval through the cache
(storing oracle results on a miss), site and pair probabilities, the
symmetric and escape rates, the projected rate deviation `delta_om`, and
the bias vectors.  Division of a float array by a zero sum produces
non-finite floats rather than raising; in `ℚ` it produces zeros --
neither raises, and no claim depends on that value. -/
def VMGen.LijMidCompute (d : VMGen) (bFV bFS bFSV bFT0 bFT1 bFT2 : List ℚ) :
    Except PyErr LijMid := do
  -- step 1 (lines 984-997)
  let vTK : vacancyThermoKinetics :=
    ⟨bFV.map (fun _ => 1), bFV, bFT0.map (fun _ => 1), bFT0⟩
  let cached := vtkDictGet d.GFvalues vTK
  let l0vvCached := vtkDictGet d.Lvvvalues vTK
  let (GF, L0vv, gfv2, lvv2) ←
    match cached with
    | some GFc => pure (GFc, l0vvCached, d.GFvalues, d.Lvvvalues)
    | none => do
        let L0vvNew := d.GFcalcDiff vTK
        let GFnew ← d.GFstarsetStars.mapM (fun (s : List ℕ) => do
          let i0 : ℕ ← pyGet s 0
          let PS ← pyGet d.GFstarsetStates (i0 : ℤ)
          pure (d.GFcalcEval vTK PS.i PS.j PS.dx))
        pure (GFnew, some L0vvNew,
          vtkDictSet d.GFvalues vTK GFnew,
          vtkDictSet d.Lvvvalues vTK L0vvNew)
  -- step 2 (lines 999-1008)
  let minV ← match bFV.min? with
             | some m => pure m
             | none => throw (.valueErr "min of empty sequence")
  let probV0 ← d.invmap.mapM (fun wi => do
      let b ← pyGet bFV (wi : ℤ)
      pure (d.exp (minV - b)))
  let sV : ℚ := probV0.foldl (fun a x => a + x) 0
  let probV := probV0.map (fun x => x * ((d.N : ℚ) / sV))
  let minS ← match bFS.min? with
             | some m => pure m
             | none => throw (.valueErr "min of empty sequence")
  let probS0 ← d.invmap.mapM (fun wi => do
      let b ← pyGet bFS (wi : ℤ)
      pure (d.exp (minS - b)))
  let sS : ℚ := probS0.foldl (fun a x => a + x) 0
  let probS := probS0.map (fun x => x * ((d.N : ℚ) / sS))
  let bFSVkin0 ← d.kineticsvWyckoff.mapM (fun sv => do
      let a ← pyGet bFS (sv.1 : ℤ)
      let b ← pyGet bFV (sv.2 : ℤ)
      pure (a + b))
  let prob0 ← d.kineticsvWyckoff.mapM (fun sv => do
      let a ← pyGet probS (sv.1 : ℤ)
      let b ← pyGet probV (sv.2 : ℤ)
      pure (a * b))
  let bk ← d.thermo2kin.enum.foldlM
    (fun (p : List ℚ × List ℚ) tk => do
      let tindex : ℕ := tk.1
      let kindex : ℕ := tk.2
      let bsv ← pyGet bFSV (tindex : ℤ)
      let cur ← pyGet p.1 (kindex : ℤ)
      let l1 ← pySet p.1 (kindex : ℤ) (cur + bsv)
      let curp ← pyGet p.2 (kindex : ℤ)
      let l2 ← pySet p.2 (kindex : ℤ) (curp * d.exp (-bsv))
      pure (l1, l2))
    (bFSVkin0, prob0)
  let bFSVkin := bk.1
  let prob := bk.2
  -- step 3 (lines 1010-1015)
  let rates ← d.symmetricandescaperates bFV bFS bFSVkin bFT0 bFT1 bFT2
  -- step 4 (lines 1017-1038)
  let deltaOm : ℕ → ℕ → ℚ := fun a b =>
    (sumR d.om1_jn.length (fun k => d.om1expansion a b k * rates.omega1 k)
      - sumR d.Nom0 (fun k => d.om1_om0 a b k * rates.omega0 k)
      + sumR d.om2_jn.length (fun k => d.om2expansion a b k * rates.omega2 k))
    + (if a = b ∧ a < d.Nvstars then
        sumR d.om1_jn.length (fun k => d.om1escape a k * rates.omega1escape a k)
        - sumR d.Nom0 (fun k => d.om1_om0escape a k * rates.omega1om0escape a k)
        + sumR d.om2_jn.length (fun k => d.om2escape a k * rates.omega2escape a k)
        - sumR d.Nom0 (fun k => d.om2_om0escape a k * rates.omega2om0escape a k)
      else 0)
  let bias ← d.vstar2kin.enum.foldlM
    (fun (p : (ℕ → ℚ) × (ℕ → ℚ)) svk => do
      let sv : ℕ := svk.1
      let starindex : ℕ := svk.2
      let svvac ← pyGet d.kin2vacancy (starindex : ℤ)
      let pr ← pyGet prob (starindex : ℤ)
      let pv ← pyGet probV (svvac : ℤ)
      let bS : ℚ :=
        -(sumR d.om2_jn.length (fun k => d.om2bias sv k * rates.omega2escape sv k))
          * d.sqrt pr
      let bV : ℚ :=
        (sumR d.om1_jn.length (fun k => d.om1bias sv k * rates.omega1escape sv k))
          * d.sqrt pr
        - (sumR d.Nom0 (fun k => d.om1_b0 sv k * rates.omega0escape svvac k))
          * d.sqrt pv
        - bS
        - (sumR d.Nom0 (fun k => d.om2_b0 sv k * rates.omega0escape svvac k))
          * d.sqrt pv
      pure (updA1 p.1 sv bS, updA1 p.2 sv bV))
    (zeroA1, zeroA1)
  pure ⟨GF, L0vv, gfv2, lvv2, probV, probS, prob, rates, deltaOm, bias.1, bias.2⟩

/-- The bare-solute-diffusivity loop of `Lij` (lines 1049-1058):
`L0ss += 0.5 * outer(dx,dx) * omega2escape[kin2vstar[kinetic.index[i]][0], j] * prob[kinetic.index[i]]`
over every entry of every omega2 jump orbit, divided by `N` at the end. -/
def VMGen.L0ssLoop (d : VMGen) (omega2escape : ℕ → ℕ → ℚ) (prob : List ℚ) :
    Except PyErr Mat3q := do
  let acc ← (List.range d.om2_jn.length).foldlM
    (fun (L : Mat3q) (jcol : ℕ) => do
      let jumplist ← pyGet d.om2_jn (jcol : ℤ)
      jumplist.foldlM (fun L e => do
        let i ← match e.1.1 with
                | some n => pure n
                | none => throw (.typeErr "list indices must be integers")
        let dx := e.2
        let ki ← pyGet d.kineticIndex (i : ℤ)
        let vl ← pyGet d.kin2vstar (ki : ℤ)
        let v0 ← pyGet vl 0
        let pr ← pyGet prob (ki : ℤ)
        pure (m3qAdd L
          (m3qSmul (1 / 2 * omega2escape v0 jcol * pr) (v3qOuter dx dx)))) L)
    m3qZero
  pure (m3qSmul (1 / (d.N : ℚ)) acc)

/-- Python `Lij(bFV, bFS, bFSV, bFT0, bFT1, bFT2)` (lines 964-1059).  Step 5
solves `G = (np.eye + G0 . delta_om)^-1 . G0`, forms
`outer_eta = np.dot(outer, np.dot(G, bias))`, and assembles the returned
4-tuple `(L0vv, L0ss + L2ss, -L0ss + L1sv, L1vv)`.  When the cached GF
array disagrees in length with the GF expansion, `np.dot` raises.  The
first component is exactly the object obtained from the `Lvvvalues`
cache, which is `None` when `GFvalues` holds the key but `Lvvvalues` does
not. -/
def VMGen.Lij (d : VMGen) (bFV bFS bFSV bFT0 bFT1 bFT2 : List ℚ) :
    Except PyErr (Option Mat3q × Mat3q × Mat3q × Mat3q) := do
  let m ← d.LijMidCompute bFV bFS bFSV bFT0 bFT1 bFT2
  if m.GF.length ≠ d.NGF then throw (.valueErr "shapes not aligned")
  else
    let G0 := d.G0of m.GF
    let G := matInvQ (1 + G0 * Matrix.of (fun a b : Fin d.Nvstars =>
      m.deltaOm a.val b.val)) * G0
    let GbiasV : ℕ → ℚ := fun a =>
      sumR d.Nvstars (fun e => matFun G a e * m.biasV e)
    let GbiasS : ℕ → ℚ := fun a =>
      sumR d.Nvstars (fun e => matFun G a e * m.biasS e)
    let outerEtaV : ℕ → ℕ → ℕ → ℚ := fun a b c =>
      sumR d.Nvstars (fun dd => d.outer a b c dd * GbiasV dd)
    let outerEtaS : ℕ → ℕ → ℕ → ℚ := fun a b c =>
      sumR d.Nvstars (fun dd => d.outer a b c dd * GbiasS dd)
    let L2ss := mk3 (fun a b =>
      sumR d.Nvstars (fun c => outerEtaS a b c * m.biasS c) / (d.N : ℚ))
    let L1sv := mk3 (fun a b =>
      sumR d.Nvstars (fun c => outerEtaS a b c * m.biasV c) / (d.N : ℚ))
    let L1vv := mk3 (fun a b =>
      sumR d.Nvstars (fun c => outerEtaV a b c * m.biasV c) / (d.N : ℚ))
    let L0ss ← d.L0ssLoop m.rates.omega2escape m.prob
    pure (m.L0vv, m3qAdd L0ss L2ss, m3qAdd (m3qNeg L0ss) L1sv, L1vv)

/-! ## The VacancyMediated object surface (lines 549-787)

`generate(Nthermo)` returns immediately when `Nthermo == getattr(self,
'Nthermo', 0)`; a diffuser constructed with `Nthermo = 0` therefore never
sets the attribute `Nthermo` nor any of the attributes `generate` creates
(`GFvalues`, `om1_jn`, ...).  The optional fields model attribute
presence. -/

structure VMState where
  Nthermo : Option ℤ
  thermo : StarSetM
  gen : Option VMGen

/-- Python `interactlist()` (lines 762-770): raises `ValueError` when the
thermodynamic range was never set; otherwise the representatives of the
thermo stars. -/
def VMState.interactlist (st : VMState) : Except PyErr (List PairState) := do
  if st.Nthermo.getD 0 = 0 then
    throw (.valueErr "Need to set thermodynamic range first")
  st.thermo.stars.mapM (fun s => do
    let i0 : ℕ ← pyGet s 0
    pyGet st.thermo.states (i0 : ℤ))

/-- Python `omegalist(fivefreqindex)` (lines 772-787): raises `ValueError` when
the thermodynamic range was never set; then builds the dict over
`self.om1_jn` / `self.om2_jn` (an `AttributeError` if `generate` never
created them), rejects indices other than 1 and 2, and returns the
representative endpoint pairs with the omega0 jump types. -/
def VMState.omegalist (st : VMState) (fivefreqindex : ℤ) :
    Except PyErr (List (PairState × PairState) × List ℕ) := do
  if st.Nthermo.getD 0 = 0 then
    throw (.valueErr "Need to set thermodynamic range first")
  let d ← match st.gen with
          | some d => pure d
          | none => throw (.attrErr "om1_jn")
  let omjt : Option (List (List JumpEntry) × List ℕ) :=
    if fivefreqindex = 1 then some (d.om1_jn, d.om1_jt)
    else if fivefreqindex = 2 then some (d.om2_jn, d.om2_jt)
    else none
  match omjt with
  | none => throw (.valueErr "Five frequency index should be 1 or 2")
  | some omPair => do
      let pairs ← omPair.1.mapM (fun jlist => do
        let e ← pyGet jlist 0
        let i ← match e.1.1 with
                | some n => pure n
                | none => throw (.typeErr "list indices must be integers")
        let f ← match e.1.2 with
                | some n => pure n
                | none => throw (.typeErr "list indices must be integers")
        let a ← pyGet d.kineticStates (i : ℤ)
        let b ← pyGet d.kineticStates (f : ℤ)
        pure (a, b))
      pure (pairs, omPair.2)

/-- Python `Lij` as a method (lines 964-997): line 985 builds the
`vacancyThermoKinetics` key from the arguments (pure), and line 987 then
reads `self.GFvalues`, raising `AttributeError` when `generate` never
ran; otherwise the computation of `VMGen.Lij` proceeds. -/
def VMState.Lij (st : VMState) (bFV bFS bFSV bFT0 bFT1 bFT2 : List ℚ) :
    Except PyErr (Option Mat3q × Mat3q × Mat3q × Mat3q) :=
  match st.gen with
  | none => .error (.attrErr "GFvalues")
  | some d => d.Lij bFV bFS bFSV bFT0 bFT1 bFT2

/-! ## Claim-side formulas for the Lij solve step

These definitions follow the words of the spec (section 4.6, steps 6-7):
`G = (I + G0 . delta_omega)^-1 . G0`, `eta = outer . G . bias`,
`L2ss = eta_S . biasS / N`, `L1sv = eta_S . biasV / N`,
`L1vv = eta_V . biasV / N`; they are compared with the translation of the
source in the C1 theorem. -/

def specG (d : VMGen) (m : LijMid) : Matrix (Fin d.Nvstars) (Fin d.Nvstars) ℚ :=
  matInvQ (1 + d.G0of m.GF *
      Matrix.of (fun a b : Fin d.Nvstars => m.deltaOm a.val b.val)) *
    d.G0of m.GF

def specEtaS (d : VMGen) (m : LijMid) : ℕ → ℕ → ℕ → ℚ := fun a b c =>
  sumR d.Nvstars (fun dd => d.outer a b c dd *
    sumR d.Nvstars (fun e => matFun (specG d m) dd e * m.biasS e))

def specEtaV (d : VMGen) (m : LijMid) : ℕ → ℕ → ℕ → ℚ := fun a b c =>
  sumR d.Nvstars (fun dd => d.outer a b c dd *
    sumR d.Nvstars (fun e => matFun (specG d m) dd e * m.biasV e))

def specL2ss (d : VMGen) (m : LijMid) : Mat3q :=
  mk3 (fun a b => sumR d.Nvstars (fun c => specEtaS d m a b c * m.biasS c) / (d.N : ℚ))

def specL1sv (d : VMGen) (m : LijMid) : Mat3q :=
  mk3 (fun a b => sumR d.Nvstars (fun c => specEtaS d m a b c * m.biasV c) / (d.N : ℚ))

def specL1vv (d : VMGen) (m : LijMid) : Mat3q :=
  mk3 (fun a b => sumR d.Nvstars (fun c => specEtaV d m a b c * m.biasV c) / (d.N : ℚ))

/-! ## Concrete instances used by the witnesses and counterexamples -/

/-- The identity 3x3 integer matrix. -/
def idMat3i : Mat3i := (((1 : ℤ),0,0), ((0 : ℤ),1,0), ((0 : ℤ),0,1))

/-- The identity 3x3 rational matrix. -/
def idMat3q : Mat3q := (((1 : ℚ),0,0), ((0 : ℚ),1,0), ((0 : ℚ),0,1))

/-- The identity group operation. -/
def idGop : Gop :=
  { rot := idMat3i, tau := fun _ => v3iZero, perm := fun n => n,
    cartrot := idMat3q }

/-- A primitive cubic crystal with a single site at the origin and only
the identity operation. -/
def crysW : Crys :=
  { G := [idGop], lattice := idMat3q, basis := fun _ => v3qZero }

def psP : PairState := ⟨0, 0, ((1 : ℤ),0,0), ((1 : ℚ),0,0)⟩
def psN : PairState := ⟨0, 0, ((-1 : ℤ),0,0), ((-1 : ℚ),0,0)⟩

/-- A generated one-shell StarSet on `crysW` holding the pair `psP` and
its negation. -/
def Sw : StarSetM :=
  { crys := crysW, chem := 0, Nshells := 1,
    jumpnetworkIndex := [[0, 1]], jumplist := [psP, psN],
    states := [psP, psN], Nstates := 2,
    stars := [[0, 1]], Nstars := 1, index := [0, 0] }

/-- A one-shell StarSet with chemistry index 0. -/
def ssChem0 : StarSetM :=
  { crys := crysW, chem := 0, Nshells := 1,
    jumpnetworkIndex := [[0]], jumplist := [psP],
    states := [psP], Nstates := 1,
    stars := [[0]], Nstars := 1, index := [0] }

/-- The same StarSet data with chemistry index 1. -/
def ssChem1 : StarSetM :=
  { crys := crysW, chem := 1, Nshells := 1,
    jumpnetworkIndex := [[0]], jumplist := [psP],
    states := [psP], Nstates := 1,
    stars := [[0]], Nstars := 1, index := [0] }

/-- Wyckoff data distinguishing the omega1 and omega2 networks: sites 0
and 1 lie on different Wyckoff orbits, the omega1 representative jump
connects states of site 0, the omega2 one states of site 1. -/
def invmapC2 : List ℕ := [0, 1]

def statesC2 : List PairState :=
  [⟨0, 0, ((1 : ℤ),0,0), ((1 : ℚ),0,0)⟩, ⟨0, 0, ((-1 : ℤ),0,0), ((-1 : ℚ),0,0)⟩,
   ⟨1, 1, ((1 : ℤ),0,0), ((1 : ℚ),0,0)⟩, ⟨1, 1, ((-1 : ℤ),0,0), ((-1 : ℚ),0,0)⟩]

def om1jnC2 : List (List JumpEntry) := [[((some 0, some 1), ((1 : ℚ),0,0))]]

def om2jnC2 : List (List JumpEntry) := [[((some 2, some 3), ((1 : ℚ),0,0))]]

/-- Two GF-cache keys equal under the tolerance comparison but with
different raw float data. -/
def vtkA : vacancyThermoKinetics := ⟨[1], [0], [1], [0]⟩

def vtkB : vacancyThermoKinetics := ⟨[1 + 1 / 1000000], [0], [1], [0]⟩

/-- A minimal consistent diffuser record on which `Lij` succeeds. -/
def dW : VMGen :=
  { exp := fun _ => 1, sqrt := fun _ => 1,
    N := 1, Nvstars := 1, NGF := 1, Nom0 := 1,
    invmap := [0],
    kineticsvWyckoff := [(0, 0)],
    thermo2kin := [0],
    kin2vacancy := [0],
    vstar2kin := [0],
    kin2vstar := [[0]],
    kineticIndex := [0, 0],
    kineticStates := [psP, psN],
    omega0vacancyWyckoff := [(0, 0)],
    omega1svsvWyckoff := [(0, 0, 0, 0)],
    omega2svsvWyckoff := [(0, 0, 0, 0)],
    om1_jn := [[((some 0, some 1), ((1 : ℚ),0,0))]],
    om2_jn := [[((some 0, some 1), ((1 : ℚ),0,0))]],
    om1_jt := [0], om2_jt := [0],
    om1_SP := [(0, 0)], om2_SP := [(0, 0)],
    GFstarsetStates := [PairState.zero 0],
    GFstarsetStars := [[0]],
    GFexpansion := fun _ _ _ => 1,
    outer := fun _ _ _ _ => 1,
    om1expansion := fun _ _ _ => 1, om2expansion := fun _ _ _ => 1,
    om1_om0 := fun _ _ _ => 1, om2_om0 := fun _ _ _ => 1,
    om1escape := fun _ _ => 1, om2escape := fun _ _ => 1,
    om1_om0escape := fun _ _ => 1, om2_om0escape := fun _ _ => 1,
    om1_b0 := fun _ _ => 1, om2_b0 := fun _ _ => 1,
    om1bias := fun _ _ => 1, om2bias := fun _ _ => 1,
    GFvalues := [], Lvvvalues := [],
    GFcalcEval := fun _ _ _ _ => 1,
    GFcalcDiff := fun _ => m3qZero }

/-- A freshly constructed diffuser whose thermodynamic shell was never
generated: neither `Nthermo` nor any attribute of `generate` exists. -/
def vmFresh : VMState :=
  { Nthermo := none,
    thermo := { crys := crysW, chem := 0, Nshells := 0,
                jumpnetworkIndex := [[0]], jumplist := [psP],
                states := [], Nstates := 0,
                stars := [[]], Nstars := 1, index := [] },
    gen := none }

/-- Reverse-jump closure of one jump orbit: every entry with distinct
endpoints is accompanied by the reversed pair with negated displacement
(spec section 4.3, invariant). -/
def RevClosed (l : List JumpEntry) : Prop :=
  ∀ e ∈ l, e.1.1 ≠ e.1.2 → ((e.1.2, e.1.1), v3qNeg e.2) ∈ l

/-- The omega2 entry property of the claim: the final pair state is the
negation of the initial one (under `PairState.__eq__`), and the recorded
displacement is the negated `dx` of the initial state. -/
def EntrySpec (S : StarSetM) (e : JumpEntry) : Prop :=
  ∃ a b psa psb, e.1.1 = some a ∧ e.1.2 = some b ∧
    S.states.get? a = some psa ∧ S.states.get? b = some psb ∧
    PairState.eqP psb psa.neg ∧ e.2 = v3qNeg psa.dx

/-! ## Helper lemmas -/

theorem v3qNeg_neg (v : Vec3q) : v3qNeg (v3qNeg v) = v := by
  obtain ⟨x, y, z⟩ := v
  simp [v3qNeg]

theorem v3iNeg_zero : v3iNeg v3iZero = v3iZero := by decide

theorem v3iNeg_eq_zero {v : Vec3i} : v3iNeg v = v3iZero ↔ v = v3iZero := by
  obtain ⟨x, y, z⟩ := v
  unfold v3iNeg v3iZero
  simp only [Prod.mk.injEq, neg_eq_zero]

theorem v3iAdd_neg (v : Vec3i) : v3iAdd v (v3iNeg v) = v3iZero := by
  obtain ⟨x, y, z⟩ := v
  simp [v3iAdd, v3iNeg, v3iZero]

theorem v3iAdd_neg' (v : Vec3i) : v3iAdd (v3iNeg v) v = v3iZero := by
  obtain ⟨x, y, z⟩ := v
  simp [v3iAdd, v3iNeg, v3iZero]

theorem PairState.neg_neg (a : PairState) : a.neg.neg = a := by
  obtain ⟨i, j, R, dx⟩ := a
  simp [PairState.neg, v3qNeg_neg]
  obtain ⟨x, y, z⟩ := R
  simp [v3iNeg]

theorem addNegRight (a : PairState) :
    ∃ z, PairState.add a a.neg = Except.ok z ∧
      PairState.eqP z (PairState.zero a.i) := by
  by_cases h1 : a.iszero ∧ a.j = -1
  · refine ⟨a.neg, by simp [PairState.add, h1], ?_⟩
    obtain ⟨⟨hij, hR⟩, _⟩ := h1
    simp [PairState.neg, PairState.eqP, PairState.zero, hij, hR, v3iNeg_zero]
  · by_cases h2 : a.neg.iszero ∧ a.neg.i = -1
    · refine ⟨a, by simp [PairState.add, h1, h2], ?_⟩
      obtain ⟨⟨hij, hR⟩, _⟩ := h2
      simp only [PairState.neg] at hij hR
      rw [v3iNeg_eq_zero] at hR
      simp [PairState.eqP, PairState.zero, hij.symm, hR]
    · simp only [PairState.neg] at h2
      refine ⟨⟨a.i, a.i, v3iAdd a.R (v3iNeg a.R), v3qAdd a.dx (v3qNeg a.dx)⟩,
        ?_, ?_⟩
      · simp [PairState.add, h1, h2, PairState.neg]
      · simp [PairState.eqP, PairState.zero, v3iAdd_neg]

theorem addNegLeft (a : PairState) :
    ∃ w, PairState.add a.neg a = Except.ok w ∧
      PairState.eqP w (PairState.zero a.j) := by
  have h := addNegRight a.neg
  rw [PairState.neg_neg] at h
  exact h

theorem zip_self_eq {l : List ℚ} {p : ℚ × ℚ} (hp : p ∈ l.zip l) :
    p.1 = p.2 := by
  induction l with
  | nil => simp at hp
  | cons x t ih =>
    rcases List.mem_cons.mp hp with h | h
    · rw [h]
    · exact ih h

theorem allcloseQ_refl (l : List ℚ) : allcloseQ l l := by
  refine ⟨rfl, fun p hp => ?_⟩
  rw [zip_self_eq hp]
  simp only [sub_self, abs_zero]
  positivity

/-! ## Claim theorems -/

/-- C7: for every PairState `a`, the composition `a + (-a)` is defined and
equals the zero PairState at site `a.i`, and `(-a) + a` is defined and
equals the zero PairState at site `a.j`, where equality compares
`(i, j, R)` only. -/
theorem C7_add_neg_is_zero (a : PairState) :
    ∃ z w, PairState.add a a.neg = Except.ok z ∧
      PairState.eqP z (PairState.zero a.i) ∧
      PairState.add a.neg a = Except.ok w ∧
      PairState.eqP w (PairState.zero a.j) := by
  obtain ⟨z, hz1, hz2⟩ := addNegRight a
  obtain ⟨w, hw1, hw2⟩ := addNegLeft a
  exact ⟨z, w, hz1, hz2, hw1, hw2⟩

/-- C8: PairState equality compares only `(i, j, R)` and ignores `dx`
entirely, and the hash respects this equality: equal states (possibly with
different `dx`) have equal hashes. -/
theorem C8_eq_ignores_dx_and_hash_consistent :
    (∀ (i j : ℤ) (R : Vec3i) (dxa dxb : Vec3q),
      PairState.eqP ⟨i, j, R, dxa⟩ ⟨i, j, R, dxb⟩) ∧
    (∀ a b : PairState, PairState.eqP a b →
      (a.i = b.i ∧ a.j = b.j ∧ a.R = b.R) ∧ a.hashKey = b.hashKey) := by
  refine ⟨fun i j R dxa dxb => ⟨rfl, rfl, rfl⟩, fun a b h => ⟨h, ?_⟩⟩
  obtain ⟨h1, h2, h3⟩ := h
  unfold PairState.hashKey
  rw [h1, h2, h3]

/-- C8 witness: two states with the same `(i, j, R)` but different `dx`
are equal and hash identically. -/
theorem C8_witness :
    PairState.hashKey ⟨0, 1, ((2 : ℤ), 3, 4), ((5 : ℚ), 6, 7)⟩ =
      PairState.hashKey ⟨0, 1, ((2 : ℤ), 3, 4), ((8 : ℚ), 9, 10)⟩ :=
  (C8_eq_ignores_dx_and_hash_consistent.2 _ _ (by decide)).2

/-- C10: for every two vacancyThermoKinetics values, evaluating `a != b`
raises `NameError` (the `__ne__` body calls the unbound plain name
`__eq__`); it never returns the boolean negation of `a == b`. -/
theorem C10_ne_always_name_error (a b : vacancyThermoKinetics) :
    vacancyThermoKinetics.nePy a b =
      Except.error (PyErr.nameErr "name __eq__ is not defined") := rfl

/-- C4: the failing input.  The keys `vtkA` and `vtkB` are equal under the
tolerance comparison of `__eq__`, but the raw byte strings the code feeds
to `hash` differ: the claimed rounding before hashing does not exist in
the code, so equal keys hash differently. -/
theorem C4_eq_but_hash_bytes_differ :
    vacancyThermoKinetics.eqP vtkA vtkB ∧ vtkA.hashBytes ≠ vtkB.hashBytes := by
  constructor
  · refine ⟨?_, ?_, ?_, ?_⟩
    · simp only [vtkA, vtkB, allcloseQ, List.zip, List.zipWith, List.length,
        List.mem_singleton, forall_eq]
      refine ⟨trivial, ?_⟩
      rw [show |(1 : ℚ) - (1 + 1 / 1000000)| = 1 / 1000000 by
            rw [abs_of_nonpos] <;> norm_num,
          abs_of_nonneg (by norm_num)]
      norm_num
    · exact allcloseQ_refl _
    · exact allcloseQ_refl _
    · exact allcloseQ_refl _
  · simp only [vacancyThermoKinetics.hashBytes, vtkA, vtkB]
    intro h
    have := List.head_eq_of_cons_eq h
    norm_num at this

/-- C2: the failing input.  On a diffuser whose omega1 and omega2 networks
have representatives at different Wyckoff orbits, the table the code
builds (iterating `om1_jn`) differs from the table the spec prescribes
(iterating `om2_jn`). -/
theorem C2_omega2Wyckoff_uses_om1_network :
    omega2svsvWyckoffCode invmapC2 statesC2 om1jnC2 = Except.ok [(0, 0, 0, 0)] ∧
    omega2svsvWyckoffSpec invmapC2 statesC2 om2jnC2 = Except.ok [(1, 1, 1, 1)] ∧
    ([((0 : ℕ), (0 : ℕ), (0 : ℕ), (0 : ℕ))] : List (ℕ × ℕ × ℕ × ℕ)) ≠
      [(1, 1, 1, 1)] :=
  ⟨by decide, by decide, by decide⟩

/-- C3: the failing input.  Combining StarSets of different chemistry via
`+=` evaluates to the `ArithmeticError` *object*, returned as a value
(`__iadd__` says `return`, not `raise`), and `+` silently returns an
unchanged copy of the left operand: no exception is raised by either. -/
theorem C3_chem_mismatch_returns_error_object :
    StarSetM.iadd ssChem0 ssChem1 =
      IaddResult.errObj "Cannot add different chemistry index" ∧
    StarSetM.addOp ssChem0 ssChem1 = IaddResult.starset ssChem0 :=
  ⟨rfl, rfl⟩

/-- C9: calling `interactlist()`, `omegalist(1)`, `omegalist(2)` or
`Lij(...)` on a diffuser whose thermodynamic shell was never generated
with `Nthermo >= 1` (the attribute `Nthermo` unset or 0, and the
attributes of `generate` absent) fails with an error rather than
returning a value: the first three raise `ValueError` through the
explicit guard, `Lij` raises `AttributeError` at `self.GFvalues`. -/
theorem C9_uninitialized_shell_errors (st : VMState)
    (bFV bFS bFSV bFT0 bFT1 bFT2 : List ℚ)
    (hN : st.Nthermo.getD 0 = 0) (hg : st.gen = none) :
    st.interactlist =
      Except.error (PyErr.valueErr "Need to set thermodynamic range first") ∧
    st.omegalist 1 =
      Except.error (PyErr.valueErr "Need to set thermodynamic range first") ∧
    st.omegalist 2 =
      Except.error (PyErr.valueErr "Need to set thermodynamic range first") ∧
    st.Lij bFV bFS bFSV bFT0 bFT1 bFT2 =
      Except.error (PyErr.attrErr "GFvalues") := by
  refine ⟨?_, ?_, ?_, ?_⟩
  · simp only [VMState.interactlist, hN, if_pos]
    rfl
  · simp only [VMState.omegalist, hN, if_pos]
    rfl
  · simp only [VMState.omegalist, hN, if_pos]
    rfl
  · simp only [VMState.Lij, hg]

/-- C9 witness: the errors on a freshly constructed, never-generated
diffuser. -/
theorem C9_witness :
    vmFresh.interactlist =
      Except.error (PyErr.valueErr "Need to set thermodynamic range first") ∧
    vmFresh.omegalist 1 =
      Except.error (PyErr.valueErr "Need to set thermodynamic range first") ∧
    vmFresh.omegalist 2 =
      Except.error (PyErr.valueErr "Need to set thermodynamic range first") ∧
    vmFresh.Lij [0] [0] [0] [0] [0] [0] =
      Except.error (PyErr.attrErr "GFvalues") :=
  C9_uninitialized_shell_errors vmFresh [0] [0] [0] [0] [0] [0] rfl rfl

/-! ## Monadic plumbing lemmas -/

theorem bind_ok_elim {α β : Type} {x : Except PyErr α} {g : α → Except PyErr β}
    {b : β} (h : (x >>= g) = .ok b) : ∃ a, x = .ok a ∧ g a = .ok b := by
  cases x with
  | error e => exact absurd h (by simp [Bind.bind, Except.bind])
  | ok a => exact ⟨a, rfl, h⟩

theorem pure_ok {α : Type} {a b : α}
    (h : (pure a : Except PyErr α) = .ok b) : a = b := by
  cases h; rfl

theorem foldl_preserve {α β : Type} (P : β → Prop) (f : β → α → β)
    (h : ∀ b a, P b → P (f b a)) : ∀ (l : List α) (b : β), P b → P (l.foldl f b) := by
  intro l
  induction l with
  | nil => intro b hb; simpa using hb
  | cons a t ih =>
    intro b hb
    rw [List.foldl_cons]
    exact ih _ (h b a hb)

theorem foldlM_inv {α β : Type} {f : β → α → Except PyErr β} {Q : β → Prop} :
    ∀ (l : List α),
      (∀ b a b', a ∈ l → Q b → f b a = .ok b' → Q b') →
      ∀ b b', Q b → l.foldlM f b = .ok b' → Q b' := by
  intro l
  induction l with
  | nil =>
    intro _ b b' hQ h
    rw [List.foldlM_nil] at h
    rw [← pure_ok h]
    exact hQ
  | cons a t ih =>
    intro hstep b b' hQ h
    rw [List.foldlM_cons] at h
    obtain ⟨b1, hb1, h⟩ := bind_ok_elim h
    exact ih (fun b a' b' ha' => hstep b a' b' (List.mem_cons_of_mem _ ha'))
      b1 b' (hstep b a b1 (List.mem_cons_self _ _) hQ hb1) h

/-! ## Reverse-closure of symmetrized jump orbits -/

theorem revClosed_block (acc : List JumpEntry) (hacc : RevClosed acc)
    (gi gf : Option ℕ) (gdx : Vec3q) :
    RevClosed (acc ++ (((gi, gf), gdx) ::
      (if gi ≠ gf then [((gf, gi), v3qNeg gdx)] else []))) := by
  intro e he hne
  rcases List.mem_append.mp he with h | h
  · exact List.mem_append_left _ (hacc e h hne)
  · refine List.mem_append_right _ ?_
    by_cases hg : gi = gf
    · rw [if_neg (by simpa using hg)] at h
      rcases List.mem_singleton.mp h with rfl
      exact absurd (by simpa using hg) hne
    · rw [if_pos hg] at h
      rcases List.mem_cons.mp h with rfl | h
      · rw [if_pos hg]
        exact List.mem_cons_of_mem _ (List.mem_singleton.mpr rfl)
      · rcases List.mem_singleton.mp h with rfl
        simp only [v3qNeg_neg]
        exact List.mem_cons_self _ _

theorem revClosed_init (i f : ℕ) (dx : Vec3q) :
    RevClosed (((some i, some f), dx) ::
      (if i ≠ f then [((some f, some i), v3qNeg dx)] else [])) := by
  have h := revClosed_block [] (by intro e he; simp at he) (some i) (some f) dx
  rw [List.nil_append] at h
  by_cases hif : i = f
  · subst hif
    rw [if_neg (by simp)]
    rw [if_neg (by simp)] at h
    exact h
  · rw [if_pos hif]
    rw [if_pos (by simpa using hif)] at h
    exact h

theorem symmequiv_revclosed (S : StarSetM) (i f : ℕ) (dx : Vec3q)
    (l : List JumpEntry) (h : S.symmequivjumplist i f dx = .ok l) :
    RevClosed l := by
  unfold StarSetM.symmequivjumplist at h
  obtain ⟨PSi, hPSi, h⟩ := bind_ok_elim h
  obtain ⟨PSf, hPSf, h⟩ := bind_ok_elim h
  rw [← pure_ok h]
  apply foldl_preserve RevClosed
  · intro acc g hacc
    dsimp only
    split
    · exact hacc
    · exact revClosed_block acc hacc _ _ _
  · exact revClosed_init i f dx

theorem omega1_orbits_revclosed (S : StarSetM)
    {jn : List (List JumpEntry)} {jt : List ℕ} {sp : List (ℕ × ℕ)}
    (h : S.jumpnetworkOmega1 = .ok (jn, jt, sp)) :
    ∀ orbit ∈ jn, RevClosed orbit := by
  unfold StarSetM.jumpnetworkOmega1 at h
  split at h
  · cases pure_ok h
    intro orbit ho
    simp at ho
  · have hQ := foldlM_inv (Q := fun acc => ∀ orbit ∈ acc.1, RevClosed orbit)
      _ ?_ _ _ (by intro orbit ho; simp at ho) h
    · exact hQ
    · intro acc jtp acc' _ hQ1 hstep
      obtain ⟨jumps, _, hstep⟩ := bind_ok_elim hstep
      refine foldlM_inv (Q := fun acc => ∀ orbit ∈ acc.1, RevClosed orbit)
        _ ?_ _ _ hQ1 hstep
      intro acc2 jump acc2' _ hQ2 hstep2
      refine foldlM_inv (Q := fun acc => ∀ orbit ∈ acc.1, RevClosed orbit)
        _ ?_ _ _ hQ2 hstep2
      intro acc3 ip acc3' _ hQ3 hstep3
      dsimp only at hstep3
      split at hstep3
      · rw [← pure_ok hstep3]; exact hQ3
      · split at hstep3
        · rw [← pure_ok hstep3]; exact hQ3
        · split at hstep3
          · rw [← pure_ok hstep3]; exact hQ3
          · split at hstep3
            · rw [← pure_ok hstep3]; exact hQ3
            · split at hstep3
              · rw [← pure_ok hstep3]; exact hQ3
              · obtain ⟨sj, hsj, hstep3⟩ := bind_ok_elim hstep3
                obtain ⟨sp1, _, hstep3⟩ := bind_ok_elim hstep3
                obtain ⟨sp2, _, hstep3⟩ := bind_ok_elim hstep3
                rw [← pure_ok hstep3]
                intro orbit ho
                rcases List.mem_append.mp ho with ho | ho
                · exact hQ3 orbit ho
                · rcases List.mem_singleton.mp ho with rfl
                  exact symmequiv_revclosed S _ _ _ _ hsj

theorem omega2_orbits_revclosed (S : StarSetM)
    {jn : List (List JumpEntry)} {jt : List ℕ} {sp : List (ℕ × ℕ)}
    (h : S.jumpnetworkOmega2 = .ok (jn, jt, sp)) :
    ∀ orbit ∈ jn, RevClosed orbit := by
  unfold StarSetM.jumpnetworkOmega2 at h
  split at h
  · cases pure_ok h
    intro orbit ho
    simp at ho
  · have hQ := foldlM_inv (Q := fun acc => ∀ orbit ∈ acc.1, RevClosed orbit)
      _ ?_ _ _ (by intro orbit ho; simp at ho) h
    · exact hQ
    · intro acc jtp acc' _ hQ1 hstep
      obtain ⟨jumps, _, hstep⟩ := bind_ok_elim hstep
      refine foldlM_inv (Q := fun acc => ∀ orbit ∈ acc.1, RevClosed orbit)
        _ ?_ _ _ hQ1 hstep
      intro acc2 jump acc2' _ hQ2 hstep2
      refine foldlM_inv (Q := fun acc => ∀ orbit ∈ acc.1, RevClosed orbit)
        _ ?_ _ _ hQ2 hstep2
      intro acc3 ip acc3' _ hQ3 hstep3
      dsimp only at hstep3
      split at hstep3
      · rw [← pure_ok hstep3]; exact hQ3
      · split at hstep3
        · rw [← pure_ok hstep3]; exact hQ3
        · split at hstep3
          · rw [← pure_ok hstep3]; exact hQ3
          · split at hstep3
            · rw [← pure_ok hstep3]; exact hQ3
            · split at hstep3
              · exact absurd hstep3 (by simp [throw, throwThe, MonadExceptOf.throw])
              · obtain ⟨sj, hsj, hstep3⟩ := bind_ok_elim hstep3
                obtain ⟨sp1, _, hstep3⟩ := bind_ok_elim hstep3
                obtain ⟨sp2, _, hstep3⟩ := bind_ok_elim hstep3
                rw [← pure_ok hstep3]
                intro orbit ho
                rcases List.mem_append.mp ho with ho | ho
                · exact hQ3 orbit ho
                · rcases List.mem_singleton.mp ho with rfl
                  exact symmequiv_revclosed S _ _ _ _ hsj

/-- C6: reverse-jump closure of the derived jump networks.  For every
network returned by `jumpnetwork_omega1` or `jumpnetwork_omega2`, any
orbit entry `((i,f), dx)` with `i != f` is accompanied by `((f,i), -dx)`
(in the same orbit, hence in the network). -/
theorem C6_reverse_jump_closure (S : StarSetM) :
    (∀ jn jt sp, S.jumpnetworkOmega1 = .ok (jn, jt, sp) →
      ∀ orbit ∈ jn, ∀ e ∈ orbit, e.1.1 ≠ e.1.2 →
        ((e.1.2, e.1.1), v3qNeg e.2) ∈ orbit) ∧
    (∀ jn jt sp, S.jumpnetworkOmega2 = .ok (jn, jt, sp) →
      ∀ orbit ∈ jn, ∀ e ∈ orbit, e.1.1 ≠ e.1.2 →
        ((e.1.2, e.1.1), v3qNeg e.2) ∈ orbit) :=
  ⟨fun _ _ _ h orbit ho => omega1_orbits_revclosed S h orbit ho,
   fun _ _ _ h orbit ho => omega2_orbits_revclosed S h orbit ho⟩

/-- C6 witness: in the omega2 network of the concrete StarSet `Sw`, the
entry `((1,0), (1,0,0))` is accompanied by its reverse `((0,1), (-1,0,0))`
inside the same orbit. -/
theorem C6_witness :
    ((((some 0 : Option ℕ), (some 1 : Option ℕ)), v3qNeg ((1 : ℚ), 0, 0)) : JumpEntry) ∈
      ([(((some 1 : Option ℕ), (some 0 : Option ℕ)), ((1 : ℚ), 0, 0)),
        ((some 0, some 1), ((-1 : ℚ), 0, 0))] : List JumpEntry) :=
  (C6_reverse_jump_closure Sw).2
    [[((some 1, some 0), ((1 : ℚ), 0, 0)), ((some 0, some 1), ((-1 : ℚ), 0, 0))]]
    [0] [(0, 0)] rfl
    _ (List.mem_singleton.mpr rfl) _ (List.mem_cons_self _ _) (by decide)

/-! ## PairState equality and group-action lemmas -/

theorem eqP_symm {a b : PairState} (h : PairState.eqP a b) :
    PairState.eqP b a := ⟨h.1.symm, h.2.1.symm, h.2.2.symm⟩

theorem eqP_trans {a b c : PairState} (h1 : PairState.eqP a b)
    (h2 : PairState.eqP b c) : PairState.eqP a c :=
  ⟨h1.1.trans h2.1, h1.2.1.trans h2.2.1, h1.2.2.trans h2.2.2⟩

theorem eqP_neg {a b : PairState} (h : PairState.eqP a b) :
    PairState.eqP a.neg b.neg := by
  obtain ⟨h1, h2, h3⟩ := h
  exact ⟨h2, h1, by rw [PairState.neg, PairState.neg, h3]⟩

theorem eqP_neg_swap {a b : PairState} (h : PairState.eqP b a.neg) :
    PairState.eqP a b.neg := by
  have h2 := eqP_neg h
  rw [PairState.neg_neg] at h2
  exact eqP_symm h2

theorem m3iApply_zero (M : Mat3i) : m3iApply M v3iZero = v3iZero := by
  obtain ⟨⟨a1, a2, a3⟩, ⟨b1, b2, b3⟩, ⟨c1, c2, c3⟩⟩ := M
  simp [m3iApply, v3iDot, v3iZero]

theorem m3iApply_neg (M : Mat3i) (v : Vec3i) :
    m3iApply M (v3iNeg v) = v3iNeg (m3iApply M v) := by
  obtain ⟨⟨a1, a2, a3⟩, ⟨b1, b2, b3⟩, ⟨c1, c2, c3⟩⟩ := M
  obtain ⟨x, y, z⟩ := v
  simp only [m3iApply, v3iDot, v3iNeg, Prod.mk.injEq]
  refine ⟨by ring, by ring, by ring⟩

theorem m3Apply_neg (M : Mat3q) (v : Vec3q) :
    m3Apply M (v3qNeg v) = v3qNeg (m3Apply M v) := by
  obtain ⟨⟨a1, a2, a3⟩, ⟨b1, b2, b3⟩, ⟨c1, c2, c3⟩⟩ := M
  obtain ⟨x, y, z⟩ := v
  simp only [m3Apply, v3qDot, v3qNeg, Prod.mk.injEq]
  refine ⟨by ring, by ring, by ring⟩

theorem gdirec_neg (g : Gop) (v : Vec3q) :
    gdirec g (v3qNeg v) = v3qNeg (gdirec g v) := m3Apply_neg g.cartrot v

theorem geom_neg (c : Crys) (i j : ℤ) (R : Vec3i) :
    c.geom j i (v3iNeg R) = v3qNeg (c.geom i j R) := by
  obtain ⟨R1, R2, R3⟩ := R
  unfold Crys.geom
  rcases hL : c.lattice with ⟨⟨a1, a2, a3⟩, ⟨b1, b2, b3⟩, ⟨c1, c2, c3⟩⟩
  rcases hbi : c.basis i with ⟨p1, p2, p3⟩
  rcases hbj : c.basis j with ⟨q1, q2, q3⟩
  simp only [m3Apply, v3qDot, v3qAdd, v3qSub, v3iToQ, v3iNeg, v3qNeg,
    Prod.mk.injEq, Int.cast_neg]
  refine ⟨by ring, by ring, by ring⟩

theorem sane_neg {c : Crys} {a : PairState} (h : c.sane a) : c.sane a.neg := by
  unfold Crys.sane at h ⊢
  rw [PairState.neg, geom_neg]
  simp only [h]

theorem sane_eqP_dx {c : Crys} {a b : PairState} (ha : c.sane a)
    (hb : c.sane b) (h : PairState.eqP a b) : a.dx = b.dx := by
  rw [ha, hb, h.1, h.2.1, h.2.2]

theorem gAct_R_eq (g : Gop) (R : Vec3i) (i j : ℤ) :
    v3iSub (v3iAdd (m3iApply g.rot R) (g.tau j))
        (v3iAdd (m3iApply g.rot v3iZero) (g.tau i)) =
      v3iAdd (m3iApply g.rot R) (v3iSub (g.tau j) (g.tau i)) := by
  rw [m3iApply_zero]
  rcases m3iApply g.rot R with ⟨x, y, z⟩
  rcases g.tau j with ⟨t1, t2, t3⟩
  rcases g.tau i with ⟨s1, s2, s3⟩
  simp only [v3iAdd, v3iSub, v3iZero, Prod.mk.injEq]
  refine ⟨by ring, by ring, by ring⟩

theorem gAct_components (g : Gop) (a : PairState) :
    PairState.gAct g a =
      ⟨g.perm a.i, g.perm a.j,
        v3iAdd (m3iApply g.rot a.R) (v3iSub (g.tau a.j) (g.tau a.i)),
        gdirec g a.dx⟩ := by
  unfold PairState.gAct gpos
  dsimp only
  rw [gAct_R_eq]

theorem gAct_eqP {a b : PairState} (g : Gop) (h : PairState.eqP a b) :
    PairState.eqP (PairState.gAct g a) (PairState.gAct g b) := by
  rw [gAct_components, gAct_components]
  exact ⟨by rw [h.1], by rw [h.2.1], by rw [h.1, h.2.1, h.2.2]⟩

theorem gAct_neg_eqP (g : Gop) (a : PairState) :
    PairState.eqP (PairState.gAct g a.neg) (PairState.gAct g a).neg := by
  rw [gAct_components, gAct_components]
  refine ⟨rfl, rfl, ?_⟩
  simp only [PairState.neg, m3iApply_neg]
  rcases m3iApply g.rot a.R with ⟨x, y, z⟩
  rcases g.tau a.j with ⟨t1, t2, t3⟩
  rcases g.tau a.i with ⟨s1, s2, s3⟩
  simp only [v3iAdd, v3iSub, v3iNeg, Prod.mk.injEq]
  refine ⟨by ring, by ring, by ring⟩

theorem gAct_sane {c : Crys} {g : Gop} (hc : c.compat g) {a : PairState}
    (ha : c.sane a) : c.sane (PairState.gAct g a) := by
  rw [gAct_components]
  unfold Crys.sane
  dsimp only
  rw [show gdirec g a.dx = m3Apply g.cartrot (c.geom a.i a.j a.R) by
        rw [← ha]; rfl,
      hc a.i a.j a.R]

theorem gAct_dx (g : Gop) (a : PairState) :
    (PairState.gAct g a).dx = gdirec g a.dx := by
  rw [gAct_components]

/-! ## stateindex and indexing lemmas -/

theorem pyGet_nat {α : Type} (l : List α) (n : ℕ) :
    pyGet l (n : ℤ) =
      (match l.get? n with
       | some a => .ok a
       | none => .error (.indexErr "index out of range")) := by
  unfold pyGet
  rw [if_neg (by omega), if_neg (by omega)]
  norm_num

theorem pyGet_nat_ok {α : Type} {l : List α} {n : ℕ} {a : α}
    (h : l.get? n = some a) : pyGet l (n : ℤ) = .ok a := by
  rw [pyGet_nat, h]

theorem stateindex_some {S : StarSetM} {ps : PairState} {n : ℕ}
    (h : S.stateindex ps = some n) :
    ∃ psn, S.states.get? n = some psn ∧ PairState.eqP psn ps := by
  unfold StarSetM.stateindex at h
  rw [List.findIdx?_eq_some_iff_getElem] at h
  obtain ⟨hlt, hp, _⟩ := h
  refine ⟨S.states.get ⟨n, hlt⟩, ?_, ?_⟩
  · rw [List.get?_eq_getElem?, List.getElem?_eq_getElem hlt]
    rfl
  · have := of_decide_eq_true hp
    simpa using this

theorem mem_of_get? {α : Type} {l : List α} {n : ℕ} {a : α}
    (h : l.get? n = some a) : a ∈ l := List.get?_mem h

theorem foldl_preserve_mem {α β : Type} (P : β → Prop) (f : β → α → β)
    (l : List α) (h : ∀ b a, a ∈ l → P b → P (f b a)) :
    ∀ b, P b → P (l.foldl f b) := by
  induction l with
  | nil => intro b hb; simpa using hb
  | cons a t ih =>
    intro b hb
    rw [List.foldl_cons]
    exact ih (fun b a' ha' => h b a' (List.mem_cons_of_mem _ ha'))
      _ (h b a (List.mem_cons_self _ _) hb)

/-! ## The omega2 entry property of symmetrized exchange orbits -/

theorem symmequiv_entry_spec (S : StarSetM)
    (hsane : ∀ ps ∈ S.states, S.crys.sane ps)
    (hcompat : ∀ g ∈ S.crys.G, S.crys.compat g)
    (hclosed : ∀ ps ∈ S.states, ∀ g ∈ S.crys.G,
      (S.stateindex (PairState.gAct g ps)).isSome)
    (i fv : ℕ) (PSi : PairState)
    (hi : S.states.get? i = some PSi)
    (hf : S.stateindex PSi.neg = some fv)
    (l : List JumpEntry)
    (h : S.symmequivjumplist i fv (v3qNeg PSi.dx) = .ok l) :
    ∀ e ∈ l, EntrySpec S e := by
  obtain ⟨psf, hpsf, hpsfEq⟩ := stateindex_some hf
  have hPSiMem : PSi ∈ S.states := mem_of_get? hi
  have hpsfMem : psf ∈ S.states := mem_of_get? hpsf
  have hPSiSane := hsane PSi hPSiMem
  have hpsfSane := hsane psf hpsfMem
  -- psf.dx = -PSi.dx via saneness
  have hpsfDx : psf.dx = v3qNeg PSi.dx := by
    have := sane_eqP_dx hpsfSane (sane_neg hPSiSane) hpsfEq
    simpa [PairState.neg] using this
  unfold StarSetM.symmequivjumplist at h
  rw [pyGet_nat_ok hi, pyGet_nat_ok hpsf] at h
  obtain ⟨PSi', hPSi', h⟩ := bind_ok_elim h
  obtain ⟨PSf', hPSf', h⟩ := bind_ok_elim h
  cases hPSi'
  cases hPSf'
  rw [← pure_ok h]
  apply foldl_preserve_mem (fun acc => ∀ e ∈ acc, EntrySpec S e)
  · -- the group-image step preserves the property
    intro acc g hg hacc
    dsimp only
    split
    · exact hacc
    · -- new block appended
      intro e he
      rcases List.mem_append.mp he with he | he
      · exact hacc e he
      · -- facts about the image indices
        have hcg := hcompat g hg
        obtain ⟨a, ha⟩ := Option.isSome_iff_exists.mp (hclosed PSi hPSiMem g hg)
        obtain ⟨b, hb⟩ := Option.isSome_iff_exists.mp (hclosed psf hpsfMem g hg)
        obtain ⟨psa, hpsa, hpsaEq⟩ := stateindex_some ha
        obtain ⟨psb, hpsb, hpsbEq⟩ := stateindex_some hb
        have hpsaSane := hsane psa (mem_of_get? hpsa)
        have hpsbSane := hsane psb (mem_of_get? hpsb)
        -- psb is (the class of) the negation of psa
        have hba : PairState.eqP psb psa.neg :=
          eqP_trans hpsbEq (eqP_trans (gAct_eqP g hpsfEq)
            (eqP_trans (gAct_neg_eqP g PSi) (eqP_neg (eqP_symm hpsaEq))))
        -- displacements through saneness
        have hpsaDx : psa.dx = gdirec g PSi.dx := by
          rw [sane_eqP_dx hpsaSane (gAct_sane hcg hPSiSane) hpsaEq, gAct_dx]
        have hpsbDx : psb.dx = gdirec g (v3qNeg PSi.dx) := by
          rw [sane_eqP_dx hpsbSane (gAct_sane hcg hpsfSane) hpsbEq, gAct_dx,
            hpsfDx]
        rw [ha, hb] at he
        rcases List.mem_cons.mp he with rfl | he
        · exact ⟨a, b, psa, psb, rfl, rfl, hpsa, hpsb, hba,
            by rw [gdirec_neg, hpsaDx]⟩
        · -- the reverse entry (present only when the endpoints differ)
          have he2 : e = ((some b, some a), v3qNeg (gdirec g (v3qNeg PSi.dx))) := by
            rcases em (some a ≠ some b) with hab | hab
            · rw [if_pos hab] at he
              exact List.mem_singleton.mp he
            · rw [if_neg hab] at he
              simp at he
          rw [he2]
          exact ⟨b, a, psb, psa, rfl, rfl, hpsb, hpsa, eqP_neg_swap hba,
            by rw [hpsbDx]⟩
  · -- the seed entries
    intro e he
    rcases List.mem_cons.mp he with rfl | he
    · exact ⟨i, fv, PSi, psf, rfl, rfl, hi, hpsf, hpsfEq, rfl⟩
    · have he2 : e = ((some fv, some i), v3qNeg (v3qNeg PSi.dx)) := by
        rcases em (i ≠ fv) with hif | hif
        · rw [if_pos hif] at he
          exact List.mem_singleton.mp he
        · rw [if_neg hif] at he
          simp at he
      rw [he2]
      refine ⟨fv, i, psf, PSi, rfl, rfl, hpsf, hi, eqP_neg_swap hpsfEq, ?_⟩
      rw [hpsfDx]

/-- C5: every entry `((i,f), dx)` of every orbit of the jump network
produced by `jumpnetwork_omega2` on a (well-formed, `Nshells >= 1`)
StarSet satisfies `states[f] == -states[i]` (PairState equality, which
compares `(i,j,R)`) and `dx == -states[i].dx`.  The well-formedness
hypotheses say exactly that the StarSet was built on a crystal: every
stored state satisfies the geometric `dx` invariant, the group operations
are symmetries of the geometry, and the state list is closed under the
group action. -/
theorem C5_omega2_entries_are_exchanges (S : StarSetM)
    (hsane : ∀ ps ∈ S.states, S.crys.sane ps)
    (hcompat : ∀ g ∈ S.crys.G, S.crys.compat g)
    (hclosed : ∀ ps ∈ S.states, ∀ g ∈ S.crys.G,
      (S.stateindex (PairState.gAct g ps)).isSome)
    (hN : 1 ≤ S.Nshells) :
    ∀ jn jt sp, S.jumpnetworkOmega2 = .ok (jn, jt, sp) →
      ∀ orbit ∈ jn, ∀ e ∈ orbit, EntrySpec S e := by
  intro jn jt sp h
  unfold StarSetM.jumpnetworkOmega2 at h
  split at h
  · omega
  · have hQ := foldlM_inv
      (Q := fun acc => ∀ orbit ∈ acc.1, ∀ e ∈ orbit, EntrySpec S e)
      _ ?_ _ _ (by intro orbit ho; simp at ho) h
    · exact hQ
    · intro acc jtp acc' _ hQ1 hstep
      obtain ⟨jumps, _, hstep⟩ := bind_ok_elim hstep
      refine foldlM_inv
        (Q := fun acc => ∀ orbit ∈ acc.1, ∀ e ∈ orbit, EntrySpec S e)
        _ ?_ _ _ hQ1 hstep
      intro acc2 jump acc2' _ hQ2 hstep2
      refine foldlM_inv
        (Q := fun acc => ∀ orbit ∈ acc.1, ∀ e ∈ orbit, EntrySpec S e)
        _ ?_ _ _ hQ2 hstep2
      intro acc3 ip acc3' hip hQ3 hstep3
      have hi : S.states.get? ip.1 = some ip.2 := by
        obtain ⟨hlt, hx⟩ := List.mem_enum hip
        rw [List.get?_eq_getElem?, List.getElem?_eq_getElem hlt, hx]
      dsimp only at hstep3
      split at hstep3
      · rw [← pure_ok hstep3]; exact hQ3
      · split at hstep3
        · rw [← pure_ok hstep3]; exact hQ3
        · split at hstep3
          · rw [← pure_ok hstep3]; exact hQ3
          · split at hstep3
            · rw [← pure_ok hstep3]; exact hQ3
            · split at hstep3
              · exact absurd hstep3
                  (by simp [throw, throwThe, MonadExceptOf.throw])
              · next fv hf =>
                obtain ⟨sj, hsj, hstep3⟩ := bind_ok_elim hstep3
                obtain ⟨sp1, _, hstep3⟩ := bind_ok_elim hstep3
                obtain ⟨sp2, _, hstep3⟩ := bind_ok_elim hstep3
                rw [← pure_ok hstep3]
                intro orbit ho
                rcases List.mem_append.mp ho with ho | ho
                · exact hQ3 orbit ho
                · rcases List.mem_singleton.mp ho with rfl
                  exact symmequiv_entry_spec S hsane hcompat hclosed
                    ip.1 fv ip.2 hi hf _ hsj

theorem m3Apply_id (v : Vec3q) : m3Apply idMat3q v = v := by
  obtain ⟨x, y, z⟩ := v
  simp only [m3Apply, idMat3q, v3qDot, Prod.mk.injEq]
  refine ⟨by ring, by ring, by ring⟩

theorem m3iApply_id (v : Vec3i) : m3iApply idMat3i v = v := by
  obtain ⟨x, y, z⟩ := v
  simp only [m3iApply, idMat3i, v3iDot, Prod.mk.injEq]
  refine ⟨by ring, by ring, by ring⟩

theorem idGop_compat : crysW.compat idGop := by
  intro i j R
  show m3Apply idMat3q _ = _
  rw [m3Apply_id]
  show crysW.geom i j R = crysW.geom i j
    (v3iAdd (m3iApply idMat3i R) (v3iSub v3iZero v3iZero))
  rw [m3iApply_id]
  obtain ⟨x, y, z⟩ := R
  have harg : v3iAdd (x, y, z) (v3iSub v3iZero v3iZero) = (x, y, z) := by
    simp [v3iAdd, v3iSub, v3iZero]
  rw [harg]

/-- C5 witness: in the omega2 network of the concrete StarSet `Sw`, the
entry `((1,0), (1,0,0))` indeed exchanges: state 0 is the negation of
state 1 and the displacement is minus the dx of state 1. -/
theorem C5_witness :
    EntrySpec Sw (((some 1 : Option ℕ), (some 0 : Option ℕ)), ((1 : ℚ), 0, 0)) := by
  have h := C5_omega2_entries_are_exchanges Sw
    (by intro ps hps
        rcases List.mem_cons.mp hps with rfl | hps
        · show psP.dx = _
          norm_num [psP, Sw, crysW, Crys.geom, m3Apply, v3qDot, v3qAdd,
            v3qSub, v3iToQ, idMat3q, v3qZero]
        · rcases List.mem_singleton.mp hps with rfl
          show psN.dx = _
          norm_num [psN, Sw, crysW, Crys.geom, m3Apply, v3qDot, v3qAdd,
            v3qSub, v3iToQ, idMat3q, v3qZero])
    (by intro g hg
        rcases List.mem_singleton.mp hg with rfl
        exact idGop_compat)
    (by intro ps hps g hg
        rcases List.mem_singleton.mp hg with rfl
        rcases List.mem_cons.mp hps with rfl | hps
        · decide
        · rcases List.mem_singleton.mp hps with rfl
          decide)
    (by decide)
    [[((some 1, some 0), ((1 : ℚ), 0, 0)), ((some 0, some 1), ((-1 : ℚ), 0, 0))]]
    [0] [(0, 0)] rfl
  exact h _ (List.mem_singleton.mpr rfl) _ (List.mem_cons_self _ _)

/-- C1: `Lij`, given the scaled free-energy arrays, computes the projected
Green function `G = (I + G0 . delta_omega)^-1 . G0` with `G0` the
GF-expansion contraction against the cached GF vector, sets
`eta_S = outer . G . biasS` and `eta_V = outer . G . biasV`, and returns
exactly the 4-tuple `(L0vv, L0ss + L2ss, -L0ss + L1sv, L1vv)` with
`L2ss = eta_S . biasS / N`, `L1sv = eta_S . biasV / N`,
`L1vv = eta_V . biasV / N` (the spec-side formulas `specG`, `specEtaS`,
`specEtaV`, `specL2ss`, `specL1sv`, `specL1vv`). -/
theorem C1_Lij_solve_and_assemble (d : VMGen)
    (bFV bFS bFSV bFT0 bFT1 bFT2 : List ℚ)
    (r : Option Mat3q × Mat3q × Mat3q × Mat3q)
    (h : d.Lij bFV bFS bFSV bFT0 bFT1 bFT2 = .ok r) :
    ∃ m L0ss, d.LijMidCompute bFV bFS bFSV bFT0 bFT1 bFT2 = .ok m ∧
      d.L0ssLoop m.rates.omega2escape m.prob = .ok L0ss ∧
      r = (m.L0vv, m3qAdd L0ss (specL2ss d m),
           m3qAdd (m3qNeg L0ss) (specL1sv d m), specL1vv d m) := by
  unfold VMGen.Lij at h
  obtain ⟨m, hm, h⟩ := bind_ok_elim h
  split at h
  · exact absurd h (by simp [throw, throwThe, MonadExceptOf.throw])
  · obtain ⟨L0ss, hL0, h⟩ := bind_ok_elim h
    refine ⟨m, L0ss, hm, hL0, ?_⟩
    rw [← pure_ok h]
    rfl

/-- C1 witness: on the concrete diffuser `dW` the computation succeeds and
the returned tuple is the spec assembly. -/
theorem C1_witness :
    ∃ r m L0ss,
      dW.Lij [0] [0] [0] [0] [0] [0] = .ok r ∧
      dW.LijMidCompute [0] [0] [0] [0] [0] [0] = .ok m ∧
      dW.L0ssLoop m.rates.omega2escape m.prob = .ok L0ss ∧
      r = (m.L0vv, m3qAdd L0ss (specL2ss dW m),
           m3qAdd (m3qNeg L0ss) (specL1sv dW m), specL1vv dW m) := by
  obtain ⟨m, L0ss, h1, h2, h3⟩ :=
    C1_Lij_solve_and_assemble dW [0] [0] [0] [0] [0] [0] _ rfl
  exact ⟨_, m, L0ss, rfl, h1, h2, h3⟩
